import Mathlib

/-!
Verification of the core of the gemini-better-toolcalling repository:
JSON recovery pipeline (src/core/json-utils.ts), intent protocol
(src/core/intents.ts), tool registry (src/tool-registry.ts), the three
strategy runners, the retry layers (src/strategy-runner.ts and the
Google client transport), and the benchmark orchestrator
(src/benchmark.ts).

Modelling conventions:
* JavaScript strings are modelled as Lean `String` / `List Char`
  (sequences of Unicode scalar values; lone UTF-16 surrogates are not
  representable and play no role in the claims).
* JSON numbers are modelled as integers (`Int`).  JavaScript numbers
  are IEEE doubles; floating-point values are outside the shallow
  embedding, and none of the claims depend on fractional numbers, so
  the strict parser model rejects fraction/exponent continuations
  instead of mis-reading them.
* `async` code is modelled by explicit state passing: the abstract
  model-call capability (`client.generateContent`) is an oracle, either
  a list of responses consumed in order (runners) or a function from
  the attempt index (retry layers).
-/

namespace GeminiToolcalling

/-! ## JSON values

JSON values as produced by `JSON.parse`.  A mutual inductive is used so
that structural recursion and induction over arrays and objects is
available directly. -/

mutual

inductive Json where
  | null : Json
  | bool (b : Bool) : Json
  | num (n : Int) : Json
  | str (s : String) : Json
  | arr (elems : JsonElems) : Json
  | obj (mems : JsonMems) : Json

inductive JsonElems where
  | nil : JsonElems
  | cons (hd : Json) (tl : JsonElems) : JsonElems

inductive JsonMems where
  | nil : JsonMems
  | cons (key : String) (val : Json) (tl : JsonMems) : JsonMems

end

/-! ## Character helpers -/

/-- JSON insignificant whitespace (RFC 8259): space, tab, LF, CR. -/
def isWs (c : Char) : Bool :=
  c = ' ' || c = '\t' || c = '\n' || c = '\r'

/-- Whitespace in the sense of JavaScript `String.prototype.trim`
(restricted to the ASCII whitespace characters; the additional Unicode
space characters of the full JS set are immaterial to the claims). -/
def isJsWs (c : Char) : Bool :=
  c = ' ' || c = '\t' || c = '\n' || c = '\r' || c = '\x0b' || c = '\x0c'

def skipWs (cs : List Char) : List Char :=
  cs.dropWhile isWs

def trimLeft (cs : List Char) : List Char :=
  cs.dropWhile isJsWs

def trimRight (cs : List Char) : List Char :=
  (cs.reverse.dropWhile isJsWs).reverse

/-- Model of JavaScript `.trim()`. -/
def jsTrim (cs : List Char) : List Char :=
  trimLeft (trimRight cs)

/-! ## `JSON.stringify` model

`JSON.stringify` over the `Json` type: canonical rendering, no
indentation, standard escaping of `"`, backslash and control
characters. -/

/-- Decimal digit characters of a natural number, most significant
first. -/
def natToChars (n : Nat) : List Char :=
  if n = 0 then ['0'] else ((Nat.digits 10 n).reverse.map Nat.digitChar)

def intToChars (n : Int) : List Char :=
  if n < 0 then '-' :: natToChars n.natAbs else natToChars n.toNat

/-- JSON string escaping of one character, as performed by
`JSON.stringify`. -/
def escapeChar (c : Char) : List Char :=
  if c = '"' then ['\\', '"']
  else if c = '\\' then ['\\', '\\']
  else if c = '\x08' then ['\\', 'b']
  else if c = '\t' then ['\\', 't']
  else if c = '\n' then ['\\', 'n']
  else if c = '\x0c' then ['\\', 'f']
  else if c = '\r' then ['\\', 'r']
  else if c.toNat < 32 then
    ['\\', 'u', '0', '0', Nat.digitChar (c.toNat / 16), Nat.digitChar (c.toNat % 16)]
  else [c]

def escapeChars : List Char → List Char
  | [] => []
  | c :: rest => escapeChar c ++ escapeChars rest

mutual

def stringifyVal : Json → List Char
  | .num n => intToChars n
  | .str s => '"' :: (escapeChars s.data ++ ['"'])
  | .arr es => '[' :: (stringifyElems es ++ [']'])
  | .obj ms => '{' :: (stringifyMems ms ++ ['}'])
  | .bool false => ['f', 'a', 'l', 's', 'e']
  | .bool true => ['t', 'r', 'u', 'e']
  | .null => ['n', 'u', 'l', 'l']

def stringifyElems : JsonElems → List Char
  | .nil => []
  | .cons v .nil => stringifyVal v
  | .cons v tl => stringifyVal v ++ ',' :: stringifyElems tl

def stringifyMems : JsonMems → List Char
  | .nil => []
  | .cons k v .nil => '"' :: (escapeChars k.data ++ '"' :: ':' :: stringifyVal v)
  | .cons k v tl =>
      ('"' :: (escapeChars k.data ++ '"' :: ':' :: stringifyVal v)) ++ ',' :: stringifyMems tl

end

/-- Model of `JSON.stringify(v)`. -/
def jsonStringify (v : Json) : String :=
  String.mk (stringifyVal v)

/-! ## JSON parser model

A fuel-indexed recursive-descent parser over `List Char`.  With
`lenient := false` it models strict `JSON.parse`; with
`lenient := true` it models the composition
`JSON.parse(jsonrepair(...))` of the repository's step-3/step-4 repair
pass (see `jsonParseLenient` below). -/

def hexCharVal (c : Char) : Option Nat :=
  if '0' ≤ c ∧ c ≤ '9' then some (c.toNat - 48)
  else if 'a' ≤ c ∧ c ≤ 'f' then some (c.toNat - 87)
  else if 'A' ≤ c ∧ c ≤ 'F' then some (c.toNat - 55)
  else none

/-- Body of a JSON string literal (after the opening quote): returns
the unescaped characters and the remainder after the closing quote. -/
def parseStringBody : List Char → Option (List Char × List Char)
  | [] => none
  | c :: rest =>
    if c = '"' then some ([], rest)
    else if c = '\\' then
      match rest with
      | [] => none
      | e :: rest2 =>
        if e = '"' then (parseStringBody rest2).map (fun p => ('"' :: p.1, p.2))
        else if e = '\\' then (parseStringBody rest2).map (fun p => ('\\' :: p.1, p.2))
        else if e = '/' then (parseStringBody rest2).map (fun p => ('/' :: p.1, p.2))
        else if e = 'b' then (parseStringBody rest2).map (fun p => ('\x08' :: p.1, p.2))
        else if e = 'f' then (parseStringBody rest2).map (fun p => ('\x0c' :: p.1, p.2))
        else if e = 'n' then (parseStringBody rest2).map (fun p => ('\n' :: p.1, p.2))
        else if e = 'r' then (parseStringBody rest2).map (fun p => ('\r' :: p.1, p.2))
        else if e = 't' then (parseStringBody rest2).map (fun p => ('\t' :: p.1, p.2))
        else if e = 'u' then
          match rest2 with
          | h1 :: h2 :: h3 :: h4 :: rest3 =>
            match hexCharVal h1, hexCharVal h2, hexCharVal h3, hexCharVal h4 with
            | some v1, some v2, some v3, some v4 =>
              let n := v1 * 4096 + v2 * 256 + v3 * 16 + v4
              if n < 0xd800 ∨ 0xe000 ≤ n then
                (parseStringBody rest3).map (fun p => (Char.ofNat n :: p.1, p.2))
              else none
            | _, _, _, _ => none
          | _ => none
        else none
    else if c.toNat < 32 then none
    else (parseStringBody rest).map (fun p => (c :: p.1, p.2))

/-- Expect a literal character sequence, returning the remainder. -/
def expectLit : List Char → List Char → Option (List Char)
  | [], cs => some cs
  | _, [] => none
  | p :: ps, c :: cs => if c = p then expectLit ps cs else none

/-- A decimal natural-number token.  Fraction/exponent continuations
are rejected (integer-only number model, see file header). -/
def parseNatTok (cs : List Char) : Option (Nat × List Char) :=
  if (cs.takeWhile Char.isDigit).isEmpty then none
  else
    match (cs.dropWhile Char.isDigit).head? with
    | some c =>
      if c = '.' ∨ c = 'e' ∨ c = 'E' then none
      else some ((cs.takeWhile Char.isDigit).foldl (fun a d => 10 * a + (d.toNat - 48)) 0,
          cs.dropWhile Char.isDigit)
    | none => some ((cs.takeWhile Char.isDigit).foldl (fun a d => 10 * a + (d.toNat - 48)) 0,
        cs.dropWhile Char.isDigit)

def parseNumberTok (cs : List Char) : Option (Json × List Char) :=
  match cs with
  | [] => none
  | c :: cs' =>
    if c = '-' then (parseNatTok cs').map (fun p => (Json.num (-(p.1 : Int)), p.2))
    else (parseNatTok cs).map (fun p => (Json.num (p.1 : Int), p.2))

/-- Object keys: a quoted string, or (lenient mode only) an unquoted
identifier, modelling jsonrepair's unquoted-key fixing. -/
def isIdentChar (c : Char) : Bool :=
  c.isAlphanum || c = '_' || c = '$'

def parseKey (lenient : Bool) (cs : List Char) : Option (String × List Char) :=
  match cs with
  | [] => none
  | c :: r =>
    if c = '"' then (parseStringBody r).map (fun p => (String.mk p.1, p.2))
    else if lenient then
      let ds := cs.takeWhile isIdentChar
      if ds.isEmpty then none else some (String.mk ds, cs.dropWhile isIdentChar)
    else none

mutual

def parseVal (lenient : Bool) : Nat → List Char → Option (Json × List Char)
  | 0, _ => none
  | fuel + 1, cs =>
    match skipWs cs with
    | [] => none
    | c :: cs' =>
      if c = '"' then (parseStringBody cs').map (fun p => (Json.str (String.mk p.1), p.2))
      else if c = '{' then
        let r0 := skipWs cs'
        if r0.head? = some '}' then some (Json.obj .nil, r0.tail)
        else (parseMems lenient fuel r0).map (fun p => (Json.obj p.1, p.2))
      else if c = '[' then
        let r0 := skipWs cs'
        if r0.head? = some ']' then some (Json.arr .nil, r0.tail)
        else (parseElems lenient fuel r0).map (fun p => (Json.arr p.1, p.2))
      else if c = 'n' then (expectLit ['u', 'l', 'l'] cs').map (fun r => (Json.null, r))
      else if c = 't' then (expectLit ['r', 'u', 'e'] cs').map (fun r => (Json.bool true, r))
      else if c = 'f' then (expectLit ['a', 'l', 's', 'e'] cs').map (fun r => (Json.bool false, r))
      else parseNumberTok (c :: cs')

def parseElems (lenient : Bool) : Nat → List Char → Option (JsonElems × List Char)
  | 0, _ => none
  | fuel + 1, cs =>
    match parseVal lenient fuel cs with
    | none => none
    | some (v, r1) =>
      match skipWs r1 with
      | [] => none
      | c :: r3 =>
        if c = ']' then some (.cons v .nil, r3)
        else if c = ',' then
          if lenient = true ∧ (skipWs r3).head? = some ']' then
            some (.cons v .nil, (skipWs r3).tail)
          else (parseElems lenient fuel r3).map (fun p => (.cons v p.1, p.2))
        else none

def parseMems (lenient : Bool) : Nat → List Char → Option (JsonMems × List Char)
  | 0, _ => none
  | fuel + 1, cs =>
    match parseKey lenient (skipWs cs) with
    | none => none
    | some (k, r1) =>
      match skipWs r1 with
      | [] => none
      | c :: r2 =>
        if c = ':' then
          match parseVal lenient fuel r2 with
          | none => none
          | some (v, r3) =>
            match skipWs r3 with
            | [] => none
            | d :: r4 =>
              if d = '}' then some (.cons k v .nil, r4)
              else if d = ',' then
                if lenient = true ∧ (skipWs r4).head? = some '}' then
                  some (.cons k v .nil, (skipWs r4).tail)
                else (parseMems lenient fuel r4).map (fun p => (.cons k v p.1, p.2))
              else none
        else none

end

/-- Sufficient fuel for any input (each two fuel levels consume at
least one input character). -/
def parseFuel (cs : List Char) : Nat :=
  2 * cs.length + 2

/-- Model of strict `JSON.parse`: the whole input (up to surrounding
whitespace) must be a single JSON value. -/
def jsonParseStrict (cs : List Char) : Option Json :=
  match parseVal false (parseFuel cs) cs with
  | some (v, rest) => if (skipWs rest).isEmpty then some v else none
  | none => none

/-- Modelled from the spec: the external `jsonrepair` library is not
part of the repository; the spec describes step 3 as "a heuristic
syntax-repair pass (fixes trailing commas, unquoted keys, stray
commentary) then parse".  The composition
`JSON.parse(jsonrepair(text))` is modelled as a lenient parse that
tolerates one trailing comma before a closing brace/bracket, unquoted
object keys, and stray trailing commentary after the value. -/
def jsonParseLenient (cs : List Char) : Option Json :=
  (parseVal true (parseFuel cs) cs).map (fun p => p.1)

/-! ## Recovery pipeline (`src/core/json-utils.ts`) -/

def fenceChars : List Char := "```".toList

/-- After the opening fence, an optional case-insensitive `json` tag is
consumed (the `(?:json)?` group of the source regex). -/
def fenceTagStrip (t : List Char) : List Char :=
  if ((t.drop 3).take 4).map Char.toLower = "json".toList then (t.drop 3).drop 4
  else t.drop 3

/-- Model of `unwrapMarkdownCodeFence`: strips one enclosing
```` ``` ````/```` ```json ```` fence from the trimmed input, returning
the original input when the trimmed input is not fully fenced. -/
def unwrapMarkdownCodeFence (cs : List Char) : List Char :=
  if fenceChars.isPrefixOf (jsTrim cs) then
    if fenceChars.isSuffixOf (fenceTagStrip (jsTrim cs)) ∧ fenceTagStrip (jsTrim cs) ≠ [] then
      jsTrim ((fenceTagStrip (jsTrim cs)).take ((fenceTagStrip (jsTrim cs)).length - 3))
    else cs
  else cs

/-- Model of `extractFirstBalancedJsonObject`'s scanning loop: depth
counting, not string-aware, exactly as in the source. -/
def scanBalanced : List Char → Nat → List Char → Option (List Char)
  | [], _, _ => none
  | c :: rest, depth, acc =>
    if c = '{' then scanBalanced rest (depth + 1) (c :: acc)
    else if c = '}' then
      if depth = 1 then some (c :: acc).reverse
      else scanBalanced rest (depth - 1) (c :: acc)
    else scanBalanced rest depth (c :: acc)

def extractFirstBalancedJsonObject (cs : List Char) : Option (List Char) :=
  let tail := cs.dropWhile (fun c => c ≠ '{')
  if tail.isEmpty then none else scanBalanced tail 0 []

/-- The normalization prefix of `parseJsonWithRepair`:
`unwrapMarkdownCodeFence(raw).trim()`. -/
def normalizeInput (raw : String) : List Char :=
  jsTrim (unwrapMarkdownCodeFence raw.toList)

/-- Model of `parseJsonWithRepair` (the spec's `recover`): fence
unwrap + trim, then strict parse, then repair-parse, then
first-balanced-brace extraction + repair-parse.  Errors are the thrown
`Error` messages. -/
def parseJsonWithRepair (raw : String) : Except String Json :=
  if (normalizeInput raw).isEmpty then .error "Empty JSON string"
  else
    match jsonParseStrict (normalizeInput raw) with
    | some v => .ok v
    | none =>
      match jsonParseLenient (normalizeInput raw) with
      | some v => .ok v
      | none =>
        match extractFirstBalancedJsonObject (normalizeInput raw) with
        | none => .error "No JSON object found"
        | some candidate =>
          match jsonParseLenient candidate with
          | some v => .ok v
          | none => .error "Unexpected token in repaired JSON"

/-- Model of `isJsonObject`. -/
def isJsonObject : Json → Bool
  | .obj _ => true
  | _ => false

/-- Model of `toJsonObject` (the spec's `asJsonObject`): fails with a
shape error unless the value is a plain keyed mapping. -/
def toJsonObject (value : Json) (label : String) : Except String Json :=
  if isJsonObject value then .ok value else .error (label ++ " must be a JSON object")

/-- Model of `parseObjectWithRepair`. -/
def parseObjectWithRepair (raw : String) (label : String) : Except String Json :=
  match parseJsonWithRepair raw with
  | .error e => .error e
  | .ok v => toJsonObject v label

end GeminiToolcalling

deriving instance DecidableEq for GeminiToolcalling.Json, GeminiToolcalling.JsonElems,
  GeminiToolcalling.JsonMems

namespace GeminiToolcalling

/-- The guard required after a number token: the next character (if
any) must not extend the token. -/
def numBoundaryOk (rest : List Char) : Prop :=
  ∀ c ∈ rest.head?, c.isDigit = false ∧ c ≠ '.' ∧ c ≠ 'e' ∧ c ≠ 'E'

/-- Rest-guard for the round-trip lemma: only number tokens constrain
the following character. -/
def valRestOk : Json → List Char → Prop
  | .num _, rest => numBoundaryOk rest
  | _, _ => True

/-! ## Shape lemmas for canonical output -/

/-- Characters that can start a canonical stringified value: they are
never whitespace, never a structural closer, never a backtick. -/
def headGood (c : Char) : Prop :=
  isWs c = false ∧ isJsWs c = false ∧ c ≠ ']' ∧ c ≠ '}' ∧ c ≠ ',' ∧ c ≠ ':' ∧ c ≠ '\x60'

/-! ## Tool registry (src/tool-registry.ts)

The Zod `argsSchema` of a tool is modelled as a validation function
(`safeParse`): `.error msg` is a validation failure whose formatted
issue list is abstracted into the message string, `.ok args` is success
with the parsed arguments.  The executor is modelled as a pure function
on the validated arguments (executor exceptions play no role in the
claims). -/

structure ToolDefinition where
  name : String
  description : String
  argsSchema : Json → Except String Json
  execute : Json → Json

/-- The registry's backing `Map<string, ToolDefinition>`: an
insertion-ordered association list with JavaScript `Map.set`
semantics. -/
abbrev Registry : Type := List (String × ToolDefinition)

/-- JavaScript `Map.set`: replace in place when the key exists, append
otherwise. -/
def mapSet (m : Registry) (k : String) (v : ToolDefinition) : Registry :=
  if m.any (fun p => p.1 = k) then
    m.map (fun p => if p.1 = k then (k, v) else p)
  else m ++ [(k, v)]

namespace ToolRegistry

def register (m : Registry) (tool : ToolDefinition) : Registry :=
  mapSet m tool.name tool

def lookup (m : Registry) (name : String) : Option ToolDefinition :=
  (m.find? (fun p => p.1 = name)).map (fun p => p.2)

def has (m : Registry) (name : String) : Bool :=
  (lookup m name).isSome

def names (m : Registry) : List String :=
  m.map (fun p => p.1)

end ToolRegistry

inductive ValidationResult where
  | ok (args : Json)
  | err (error : String)

deriving instance DecidableEq for ValidationResult

namespace ToolRegistry

/-- Model of `ToolRegistry.validateArgs`: never throws. -/
def validateArgs (m : Registry) (name : String) (raw : Json) : ValidationResult :=
  match lookup m name with
  | none => .err ("Unknown tool: " ++ name)
  | some tool =>
    match tool.argsSchema raw with
    | .error e => .err e
    | .ok args => .ok args

/-- Model of `ToolRegistry.execute`: fails with `UnknownToolError` when
the name is not registered, otherwise invokes the stored executor. -/
def execute (m : Registry) (name : String) (args : Json) : Except String Json :=
  match lookup m name with
  | none => .error ("Unknown tool: " ++ name)
  | some tool => .ok (tool.execute args)

end ToolRegistry

/-! ## Abstract model-call capability and runner data model

`client.generateContent` is modelled as a script: a list of
`ModelResult` responses consumed in order.  A run that needs more
responses than the script provides fails with a client error; the
claims are quantified over all scripts.  `raw` is an opaque provider
payload (`none` when no model function-call content is extractable from
it); trace `data` payloads are immaterial to every claim and are
dropped. -/

structure ModelFunctionCall where
  id : Option String
  name : Option String
  args : Option Json

structure ModelResult where
  text : String
  functionCalls : List ModelFunctionCall
  thoughts : List String
  raw : Option Nat

structure RunnerTraceStep where
  kind : String
  detail : String

deriving instance DecidableEq for RunnerTraceStep

structure ToolCallRecord where
  toolName : String
  args : Json
  result : Json
  repaired : Bool

deriving instance DecidableEq for ToolCallRecord

structure RunnerResult where
  strategy : String
  finalText : String
  toolCalls : List ToolCallRecord
  trace : List RunnerTraceStep

deriving instance DecidableEq for RunnerResult

/-- Conversation contents built up across turns. -/
inductive ContentItem where
  | user (text : String)
  | userFunctionResponse (callId : String) (name : String) (payload : Json)
  | modelRaw (raw : Nat)
  | modelFunctionCall (name : String) (args : Json)

/-- Model of `extractFirstModelFunctionCallContent`: recovers the
verbatim model content from the opaque raw payload when possible. -/
def extractFirstModelFunctionCallContent (raw : Option Nat) : Option ContentItem :=
  raw.map ContentItem.modelRaw

def appendThoughtTrace (step : String) (thoughts : List String) : List RunnerTraceStep :=
  thoughts.map (fun _ => ⟨"thought", step ++ "_thought"⟩)

/-- The combined outcome of a runner: the result or thrown error, the
remaining (unconsumed) script, and the log of `registry.execute`
invocations. -/
structure RunOutcome where
  result : Except String RunnerResult
  remaining : List ModelResult
  execLog : List (String × Json)

def clientExhausted : String := "Model client has no further scripted responses"

/-! ## Intent protocol (src/core/intents.ts) -/

inductive IntentAction where
  | callTool
  | respond

deriving instance DecidableEq for IntentAction

structure ToolIntent where
  action : IntentAction
  toolName : Option String
  args : Option Json
  response : Option String
  reason : Option String

deriving instance DecidableEq for ToolIntent

/-- Last-wins object field access (JavaScript object semantics after
`JSON.parse`, where duplicate keys keep the last occurrence). -/
def memsGet : JsonMems → String → Option Json
  | .nil, _ => none
  | .cons k v tl, key =>
    match memsGet tl key with
    | some r => some r
    | none => if k = key then some v else none

/-- JavaScript string truthiness. -/
def truthy : Option String → Bool
  | none => false
  | some s => decide (¬s = "")

/-- An optional field that must be a string when present (Zod
`z.string().optional()`); the error message content of a base-schema
failure is abstracted. -/
def optStringField (ms : JsonMems) (key : String) : Except String (Option String) :=
  match memsGet ms key with
  | none => .ok none
  | some (.str s) => .ok (some s)
  | some _ => .error "Invalid tool intent"

/-- An optional field that must be a plain object when present (Zod
`z.record(z.string(), z.unknown()).optional()`). -/
def optObjectField (ms : JsonMems) (key : String) : Except String (Option Json) :=
  match memsGet ms key with
  | none => .ok none
  | some (.obj m) => .ok (some (.obj m))
  | some _ => .error "Invalid tool intent"

/-- The `superRefine` issue list of `toolIntentSchema`. -/
def intentIssues (a : String) (tn : Option String) (ar : Option Json)
    (rs : Option String) : List String :=
  (if a = "call_tool" ∧ truthy tn = false then
    ["toolName is required when action=call_tool"] else []) ++
  (if a = "call_tool" ∧ ar = none then
    ["args is required when action=call_tool"] else []) ++
  (if a = "respond" ∧ truthy rs = false then
    ["response is required when action=respond"] else [])

/-- Model of `toolIntentSchema.safeParse` including the `superRefine`
issues; the issue texts of the custom refinements are the source's. -/
def toolIntentSafeParse (j : Json) : Except String ToolIntent :=
  match j with
  | .obj ms =>
    match memsGet ms "action" with
    | some (.str a) =>
      if a = "call_tool" ∨ a = "respond" then
        match optStringField ms "toolName", optObjectField ms "args",
            optStringField ms "response", optStringField ms "reason" with
        | .ok tn, .ok ar, .ok rs, .ok rn =>
          if (intentIssues a tn ar rs).isEmpty then
            .ok ⟨if a = "call_tool" then .callTool else .respond, tn, ar, rs, rn⟩
          else .error (String.intercalate "; " (intentIssues a tn ar rs))
        | _, _, _, _ => .error "Invalid tool intent"
      else .error "Invalid tool intent"
    | _ => .error "Invalid tool intent"
  | _ => .error "Invalid tool intent"

def parseToolIntentText (text : String) : Except String ToolIntent :=
  match parseJsonWithRepair text with
  | .error e => .error e
  | .ok j => toolIntentSafeParse j

/-- Model of `finalResponseSchema.safeParse` followed by extraction of
`response`. -/
def finalResponseSafeParse (j : Json) : Except String String :=
  match j with
  | .obj ms =>
    match memsGet ms "action", memsGet ms "response" with
    | some (.str a), some (.str r) =>
      if a = "respond" then .ok r else .error "Invalid final response"
    | _, _ => .error "Invalid final response"
  | _ => .error "Invalid final response"

def parseFinalResponseText (text : String) : Except String String :=
  match parseJsonWithRepair text with
  | .error e => .error e
  | .ok j => finalResponseSafeParse j

/-! ## Structured-JSON runner (src/runners/structured-json-runner.ts) -/

def runStructuredJsonRunner (script : List ModelResult) (registry : Registry)
    (userPrompt : String) : RunOutcome :=
  match script with
  | [] => ⟨.error clientExhausted, [], []⟩
  | response :: rest =>
    match parseToolIntentText response.text with
    | .error e => ⟨.error e, rest, []⟩
    | .ok intent =>
      match intent.action with
      | .respond =>
        if truthy intent.response = false then
          ⟨.error "Missing response for action=respond", rest, []⟩
        else
          ⟨.ok ⟨"structured-json", intent.response.getD "", [],
            ⟨"llm", "request_tool_intent"⟩ :: appendThoughtTrace "intent" response.thoughts ++
              [⟨"llm", "received_tool_intent"⟩, ⟨"intent", "parsed_intent"⟩]⟩, rest, []⟩
      | .callTool =>
        if truthy intent.toolName = false ∨ intent.args = none then
          ⟨.error "Missing toolName/args for action=call_tool", rest, []⟩
        else
          match ToolRegistry.validateArgs registry (intent.toolName.getD "")
              (intent.args.getD .null) with
          | .err e => ⟨.error ("Tool args validation failed: " ++ e), rest, []⟩
          | .ok args =>
            match ToolRegistry.execute registry (intent.toolName.getD "") args with
            | .error e => ⟨.error e, rest, [(intent.toolName.getD "", args)]⟩
            | .ok result =>
              match rest with
              | [] => ⟨.error clientExhausted, [], [(intent.toolName.getD "", args)]⟩
              | finalize :: rest2 =>
                match parseFinalResponseText finalize.text with
                | .error e => ⟨.error e, rest2, [(intent.toolName.getD "", args)]⟩
                | .ok finalText =>
                  ⟨.ok ⟨"structured-json", finalText,
                    [ToolCallRecord.mk (intent.toolName.getD "") args result false],
                    ⟨"llm", "request_tool_intent"⟩ ::
                      appendThoughtTrace "intent" response.thoughts ++
                      [⟨"llm", "received_tool_intent"⟩, ⟨"intent", "parsed_intent"⟩,
                        ⟨"llm", "request_final_response"⟩] ++
                      appendThoughtTrace "finalize" finalize.thoughts⟩, rest2,
                    [(intent.toolName.getD "", args)]⟩

/-! ## Single-Tool-Router runner
(src/runners/single-tool-router-runner.ts)

Prompt construction only shapes the request payload, which the script
oracle abstracts, so prompt arguments are not threaded; trace detail
strings that interpolate the turn counter are modelled without the
counter. -/

def DISPATCH_TOOL_NAME : String := "dispatch_tool"

/-- `JSON.stringify(value, null, 2)` renders the final text after the
turn budget is exhausted; the exact pretty-printed layout is immaterial
to every claim, so the compact rendering stands in for it. -/
def jsonStringifyPretty (v : Json) : String := jsonStringify v

/-- Model of `dispatchArgsSchema.safeParse` (the generic dispatcher's
`{toolName, argumentsJson}` payload); issue texts abstracted. -/
def dispatchSafeParse (args : Option Json) : Except String (String × String) :=
  match args with
  | some (.obj ms) =>
    match memsGet ms "toolName", memsGet ms "argumentsJson" with
    | some (.str tn), some (.str aj) => .ok (tn, aj)
    | _, _ => .error "invalid dispatch payload"
  | _ => .error "invalid dispatch payload"

/-- Model of `repairDispatchArgsWithLlm`'s response handling:
`toJsonObject(parseJsonWithRepair(response.text), "Repaired dispatch
args")`. -/
def repairedDispatchArgs (r : ModelResult) : Except String Json :=
  match parseJsonWithRepair r.text with
  | .error e => .error e
  | .ok v => toJsonObject v "Repaired dispatch args"

/-- Model of `resolveDispatchToolArgs`: validate, and on failure run
exactly one LLM repair exchange (consuming one scripted response) and
re-validate; a second validation failure is fatal. -/
def resolveDispatchToolArgs (registry : Registry) (toolName : String)
    (argsCandidate : Json) (script : List ModelResult) :
    Except String (Json × Bool) × List ModelResult :=
  match ToolRegistry.validateArgs registry toolName argsCandidate with
  | .ok args => (.ok (args, false), script)
  | .err _ =>
    match script with
    | [] => (.error clientExhausted, [])
    | r :: rest =>
      match repairedDispatchArgs r with
      | .error e => (.error e, rest)
      | .ok repairedArgs =>
        match ToolRegistry.validateArgs registry toolName repairedArgs with
        | .err e => (.error ("Tool args validation failed: " ++ e), rest)
        | .ok args => (.ok (args, true), rest)

/-- One turn of the router loop; `k` is the continuation for the
remaining turns. -/
def routerTurn (registry : Registry)
    (k : List ModelResult → List ContentItem → List ToolCallRecord →
      List RunnerTraceStep → List (String × Json) → RunOutcome)
    (script : List ModelResult) (contents : List ContentItem)
    (toolCalls : List ToolCallRecord) (trace : List RunnerTraceStep)
    (log : List (String × Json)) : RunOutcome :=
    match script with
    | [] => ⟨.error clientExhausted, [], log⟩
    | response :: rest =>
      match response.functionCalls.head? with
      | none =>
        if (jsTrim response.text.toList).isEmpty = false then
          ⟨.ok ⟨"single-tool-router", response.text, toolCalls,
            trace ++ ⟨"llm", "turn_request_dispatch"⟩ ::
              appendThoughtTrace "turn" response.thoughts⟩, rest, log⟩
        else if toolCalls.isEmpty then
          ⟨.ok ⟨"single-tool-router", "Model did not provide a dispatch tool call.",
            toolCalls, trace ++ ⟨"llm", "turn_request_dispatch"⟩ ::
              appendThoughtTrace "turn" response.thoughts⟩, rest, log⟩
        else
          match rest with
          | [] => ⟨.error clientExhausted, [], log⟩
          | finalize :: rest2 =>
            match parseFinalResponseText finalize.text with
            | .error e => ⟨.error e, rest2, log⟩
            | .ok finalText =>
              ⟨.ok ⟨"single-tool-router", finalText, toolCalls,
                trace ++ ⟨"llm", "turn_request_dispatch"⟩ ::
                  appendThoughtTrace "turn" response.thoughts ++
                  ⟨"llm", "finalize_after_dispatch_with_json"⟩ ::
                  appendThoughtTrace "finalize" finalize.thoughts⟩, rest2, log⟩
      | some functionCall =>
        match dispatchSafeParse functionCall.args with
        | .error e => ⟨.error ("dispatch_tool args are invalid: " ++ e), rest, log⟩
        | .ok (toolName, argumentsJson) =>
          match parseObjectWithRepair argumentsJson "dispatch argumentsJson" with
          | .error e => ⟨.error e, rest, log⟩
          | .ok maybeArgs =>
            match resolveDispatchToolArgs registry toolName maybeArgs rest with
            | (.error e, rest2) => ⟨.error e, rest2, log⟩
            | (.ok (args, repaired), rest2) =>
              match ToolRegistry.execute registry toolName args with
              | .error e => ⟨.error e, rest2, log ++ [(toolName, args)]⟩
              | .ok toolResult =>
                k rest2
                  (contents ++
                    [(extractFirstModelFunctionCallContent response.raw).getD
                      (ContentItem.modelFunctionCall DISPATCH_TOOL_NAME
                        (Json.obj (.cons "toolName" (.str toolName)
                          (.cons "argumentsJson" (.str argumentsJson) .nil)))),
                      ContentItem.userFunctionResponse (functionCall.id.getD "dispatch_call")
                        DISPATCH_TOOL_NAME
                        (Json.obj (.cons "toolName" (.str toolName)
                          (.cons "result" toolResult .nil)))])
                  (toolCalls ++ [⟨toolName, args, toolResult, repaired⟩])
                  (trace ++ ⟨"llm", "turn_request_dispatch"⟩ ::
                    appendThoughtTrace "turn" response.thoughts)
                  (log ++ [(toolName, args)])

def routerLoop (registry : Registry) :
    Nat → List ModelResult → List ContentItem → List ToolCallRecord →
      List RunnerTraceStep → List (String × Json) → RunOutcome
  | 0, script, _, toolCalls, trace, log =>
    ⟨.ok ⟨"single-tool-router",
      (match toolCalls.getLast? with
        | some lastCall => jsonStringifyPretty lastCall.result
        | none => "No result."), toolCalls, trace⟩, script, log⟩
  | fuel + 1, script, contents, toolCalls, trace, log =>
    routerTurn registry (routerLoop registry fuel) script contents toolCalls trace log

def runSingleToolRouterRunner (script : List ModelResult) (registry : Registry)
    (userPrompt : String) (maxTurns : Option Nat) : RunOutcome :=
  routerLoop registry (maxTurns.getD 4) script [ContentItem.user userPrompt] [] [] []

/-! ## Hybrid-Repair runner (the repository's hybrid-repair-runner) -/

/-- Model of `validateRawToolArgs`: a string goes through the recovery
pipeline first, anything else must already be a plain object. -/
def validateRawToolArgs (registry : Registry) (toolName : String)
    (rawArgs : Option Json) : ValidationResult :=
  match rawArgs with
  | some (.str s) =>
    match parseObjectWithRepair s "functionCall.args" with
    | .error e => .err e
    | .ok parsed => ToolRegistry.validateArgs registry toolName parsed
  | some (.obj m) => ToolRegistry.validateArgs registry toolName (.obj m)
  | _ => .err "functionCall.args must be a JSON object"

/-- Model of `repairToolArgsWithLlm`'s response handling. -/
def repairedToolArgs (r : ModelResult) : Except String Json :=
  match parseJsonWithRepair r.text with
  | .error e => .error e
  | .ok v => toJsonObject v "Repaired tool args"

/-- Model of `resolveToolArgs` (hybrid-repair): direct validation, and
on failure exactly one repair exchange then re-validation; a second
failure is fatal. -/
def resolveToolArgs (registry : Registry) (toolName : String)
    (functionCall : ModelFunctionCall) (script : List ModelResult) :
    Except String (Json × Bool) × List ModelResult :=
  match validateRawToolArgs registry toolName functionCall.args with
  | .ok args => (.ok (args, false), script)
  | .err _ =>
    match script with
    | [] => (.error clientExhausted, [])
    | r :: rest =>
      match repairedToolArgs r with
      | .error e => (.error e, rest)
      | .ok repairedArgs =>
        match ToolRegistry.validateArgs registry toolName repairedArgs with
        | .err e => (.error ("Tool args still invalid after repair: " ++ e), rest)
        | .ok args => (.ok (args, true), rest)

/-- One turn of the hybrid-repair loop; `k` is the continuation for the
remaining turns. -/
def hybridTurn (registry : Registry)
    (k : List ModelResult → List ContentItem → List ToolCallRecord →
      List RunnerTraceStep → List (String × Json) → RunOutcome)
    (script : List ModelResult) (contents : List ContentItem)
    (toolCalls : List ToolCallRecord) (trace : List RunnerTraceStep)
    (log : List (String × Json)) : RunOutcome :=
    match script with
    | [] => ⟨.error clientExhausted, [], log⟩
    | response :: rest =>
      match response.functionCalls.head? with
      | none =>
        if (jsTrim response.text.toList).isEmpty = false then
          ⟨.ok ⟨"hybrid-repair", response.text, toolCalls,
            trace ++ [⟨"llm", "turn_request"⟩, ⟨"llm", "turn_text_response"⟩]⟩, rest, log⟩
        else if toolCalls.isEmpty = false then
          match rest with
          | [] => ⟨.error clientExhausted, [], log⟩
          | finalize :: rest2 =>
            match parseFinalResponseText finalize.text with
            | .error e => ⟨.error e, rest2, log⟩
            | .ok finalText =>
              ⟨.ok ⟨"hybrid-repair", finalText, toolCalls,
                trace ++ [⟨"llm", "turn_request"⟩,
                  ⟨"llm", "finalize_after_tool_call_with_json"⟩]⟩, rest2, log⟩
        else
          match rest with
          | [] => ⟨.error clientExhausted, [], log⟩
          | fallback :: rest2 =>
            match parseToolIntentText fallback.text with
            | .error e => ⟨.error e, rest2, log⟩
            | .ok intent =>
              match intent.action with
              | .respond =>
                if truthy intent.response = false then
                  ⟨.error "Fallback intent missing response", rest2, log⟩
                else
                  ⟨.ok ⟨"hybrid-repair", intent.response.getD "", toolCalls,
                    trace ++ [⟨"llm", "turn_request"⟩,
                      ⟨"fallback", "structured_intent_fallback"⟩]⟩, rest2, log⟩
              | .callTool =>
                ⟨.ok ⟨"hybrid-repair",
                  "Fallback selected tool '" ++ intent.toolName.getD "undefined" ++
                    "', but no direct execution was run in fallback mode.", toolCalls,
                  trace ++ [⟨"llm", "turn_request"⟩,
                    ⟨"fallback", "structured_intent_fallback"⟩]⟩, rest2, log⟩
      | some functionCall =>
        if truthy functionCall.name = false ∨
            ToolRegistry.has registry (functionCall.name.getD "") = false then
          ⟨.error ("Model requested unknown tool: " ++ functionCall.name.getD "undefined"),
            rest, log⟩
        else
          match resolveToolArgs registry (functionCall.name.getD "") functionCall rest with
          | (.error e, rest2) => ⟨.error e, rest2, log⟩
          | (.ok (args, repaired), rest2) =>
            match ToolRegistry.execute registry (functionCall.name.getD "") args with
            | .error e => ⟨.error e, rest2, log ++ [(functionCall.name.getD "", args)]⟩
            | .ok toolResult =>
              k rest2
                (contents ++
                  [(extractFirstModelFunctionCallContent response.raw).getD
                    (ContentItem.modelFunctionCall (functionCall.name.getD "") args),
                    ContentItem.userFunctionResponse (functionCall.id.getD "call")
                      (functionCall.name.getD "")
                      (Json.obj (.cons "result" toolResult .nil))])
                (toolCalls ++ [⟨functionCall.name.getD "", args, toolResult, repaired⟩])
                (trace ++ [⟨"llm", "turn_request"⟩])
                (log ++ [(functionCall.name.getD "", args)])

def hybridLoop (registry : Registry) :
    Nat → List ModelResult → List ContentItem → List ToolCallRecord →
      List RunnerTraceStep → List (String × Json) → RunOutcome
  | 0, script, _, toolCalls, trace, log =>
    ⟨.ok ⟨"hybrid-repair", "No final text response after max tool turns.", toolCalls,
      trace⟩, script, log⟩
  | fuel + 1, script, contents, toolCalls, trace, log =>
    hybridTurn registry (hybridLoop registry fuel) script contents toolCalls trace log

def runHybridRepairRunner (script : List ModelResult) (registry : Registry)
    (userPrompt : String) (maxTurns : Option Nat) : RunOutcome :=
  hybridLoop registry (maxTurns.getD 3) script [ContentItem.user userPrompt] [] [] []

/-! ## Validation provenance lemmas -/

/-- The property that a (toolName, args) pair passed `validateArgs` for
that same tool name. -/
def passedValidation (registry : Registry) (e : String × Json) : Prop :=
  ∃ raw, ToolRegistry.validateArgs registry e.1 raw = .ok e.2

/-! ## Claim C1: no tool is ever executed with unvalidated arguments -/

/-- A run outcome in which every logged `execute` invocation and every
tool-call record of a successful result passed validation. -/
def outcomeValidated (registry : Registry) (o : RunOutcome) : Prop :=
  (∀ e ∈ o.execLog, passedValidation registry e) ∧
  (∀ res, o.result = .ok res →
    ∀ tc ∈ res.toolCalls, passedValidation registry (tc.toolName, tc.args))

def registryC1 : Registry :=
  [("echo", ⟨"echo", "echoes its arguments", fun j => .ok j, fun _ => Json.str "done"⟩)]

def intentTextC1 : String :=
  jsonStringify (Json.obj (.cons "action" (.str "call_tool")
    (.cons "toolName" (.str "echo") (.cons "args" (Json.obj .nil) .nil))))

def finalizeTextC1 : String :=
  jsonStringify (Json.obj (.cons "action" (.str "respond")
    (.cons "response" (.str "all done") .nil)))

def scriptC1 : List ModelResult :=
  [⟨intentTextC1, [], [], none⟩, ⟨finalizeTextC1, [], [], none⟩]

def registryC4 : Registry :=
  [("t", ⟨"t", "strict tool",
    fun j => if j = Json.obj .nil then .ok j else .error "bad", fun _ => Json.null⟩)]

def repairOkC4 : ModelResult := ⟨jsonStringify (Json.obj .nil), [], [], none⟩

def repairBadC4 : ModelResult :=
  ⟨jsonStringify (Json.obj (.cons "x" Json.null .nil)), [], [], none⟩

def fcC4 : ModelFunctionCall := ⟨none, some "t", some (Json.num 3)⟩

def registryC5 : Registry :=
  [("t", ⟨"t", "strict tool",
    fun j => if j = Json.obj .nil then .ok j else .error "bad", fun _ => Json.null⟩)]

def respondTextC5 : String :=
  jsonStringify (Json.obj (.cons "action" (.str "respond")
    (.cons "response" (.str "hello") .nil)))

def respondResultC5 : ModelResult := ⟨respondTextC5, [], [], none⟩

/-! ## Claim C6: the strategy-attempt retry layer (src/strategy-runner.ts)

`runStrategyOnce` is abstracted by an attempt-indexed oracle
`attemptResult : Nat → Except String RunnerResult` (each attempt makes
fresh model calls); timing (`durationMs`) and logging are outside every
claim and are not modelled. -/

structure PlaygroundResult where
  result : RunnerResult
  usedModel : String
  usedStrategy : String
  attempts : Nat
  errors : Option (List String)

deriving instance DecidableEq for PlaygroundResult

/-- `Math.max(0, config.maxRetries ?? 0)` (the config field is a JS
number). -/
def effectiveMaxRetries (mi : Option Int) : Nat := (max 0 (mi.getD 0)).toNat

/-- The attempt loop of `runStrategy`: `attempt` is the 1-based counter,
`errors` the messages caught so far, and the fuel is the number of
attempts still allowed; exhaustion returns the collected messages. -/
def strategyAttempts (attemptResult : Nat → Except String RunnerResult) :
    Nat → List String → Nat → (List String) ⊕ (RunnerResult × Nat × List String)
  | _, errors, 0 => .inl errors
  | attempt, errors, left + 1 =>
    match attemptResult attempt with
    | .ok r => .inr (r, attempt, errors)
    | .error m => strategyAttempts attemptResult (attempt + 1) (errors ++ [m]) left

/-- Model of `runStrategy`: up to `maxRetries + 1` attempts, each error
caught and recorded; exhaustion raises the wrapped error naming the
final failure message. -/
def runStrategy (attemptResult : Nat → Except String RunnerResult)
    (strategy model : String) (maxRetriesCfg : Option Int) :
    Except String PlaygroundResult :=
  match strategyAttempts attemptResult 1 [] (effectiveMaxRetries maxRetriesCfg + 1) with
  | .inr (r, attempt, errors) =>
    .ok ⟨r, model, strategy, attempt, if errors.isEmpty then none else some errors⟩
  | .inl errors =>
    .error ("Run failed after " ++ toString (effectiveMaxRetries maxRetriesCfg + 1) ++
      " attempt(s): " ++ errors.getLast?.getD "undefined")

def runnerResultC6 : RunnerResult := ⟨"structured-json", "done", [], []⟩

def attemptOracleC6 : Nat → Except String RunnerResult :=
  fun i => if i = 1 then .error "boom" else .ok runnerResultC6

/-! ## Claim C7: the transport retry layer (GoogleModelClient.generateWithRetry)

The SDK call is abstracted by an attempt-indexed oracle
`call : Nat → Except String ModelResult` (0-based attempt counter);
`sleep` is recorded as the list of delays in milliseconds. The float
arithmetic of `Number(...)` on fractional seconds is modelled exactly
over naturals (`Math.ceil(seconds * 1000)` as an exact ceiling). -/

def MAX_TRANSIENT_RETRIES : Nat := 2

/-- JavaScript `String.prototype.includes` on char lists. -/
def containsSub (needle : List Char) : List Char → Bool
  | [] => needle.isEmpty
  | cs@(_ :: t) => needle.isPrefixOf cs || containsSub needle t

/-- Model of `isRetryableGeminiError`: case-folded substring checks for
the transient markers. -/
def isRetryableGeminiError (message : String) : Bool :=
  containsSub "RESOURCE_EXHAUSTED".toList (message.toList.map Char.toUpper) ||
  containsSub "RATE_LIMIT".toList (message.toList.map Char.toUpper) ||
  containsSub "\"CODE\":429".toList (message.toList.map Char.toUpper) ||
  containsSub "SERVICE_UNAVAILABLE".toList (message.toList.map Char.toUpper) ||
  containsSub "\"CODE\":503".toList (message.toList.map Char.toUpper)

/-- Case-insensitive literal matcher: returns the rest after the
literal. -/
def matchLit : List Char → List Char → Option (List Char)
  | [], cs => some cs
  | _ :: _, [] => none
  | l :: lt, c :: ct => if c.toLower = l.toLower then matchLit lt ct else none

/-- Leftmost-match regex search: try each start position left to
right. -/
def scanFirst {α : Type} (f : List Char → Option α) : List Char → Option α
  | [] => f []
  | cs@(_ :: t) =>
    match f cs with
    | some r => some r
    | none => scanFirst f t

def decDigitsVal (ds : List Char) : Nat :=
  ds.foldl (fun a c => a * 10 + (c.toNat - 48)) 0

/-- The `/"retryDelay":"(\d+)s"/i` pattern at one position: the matched
whole-second count. -/
def retryInfoAt (cs : List Char) : Option Nat :=
  match matchLit "\"retryDelay\":\"".toList cs with
  | none => none
  | some rest =>
    if (rest.takeWhile Char.isDigit).isEmpty then none
    else
      match matchLit "s\"".toList (rest.dropWhile Char.isDigit) with
      | none => none
      | some _ => some (decDigitsVal (rest.takeWhile Char.isDigit))

/-- The optional fraction and final `s` of the inline pattern: given the
text after the integer digits, the fraction value and digit count. -/
def inlineFracAt (rest : List Char) : Option (Nat × Nat) :=
  match rest with
  | '.' :: r4 =>
    if (r4.takeWhile Char.isDigit).isEmpty then none
    else
      match r4.dropWhile Char.isDigit with
      | c :: _ => if c.toLower = 's' then some (decDigitsVal (r4.takeWhile Char.isDigit), (r4.takeWhile Char.isDigit).length) else none
      | [] => none
  | c :: _ => if c.toLower = 's' then some (0, 0) else none
  | [] => none

/-- The `/retry in\s+([0-9]+(?:\.[0-9]+)?)s/i` pattern at one position:
integer part, fraction value and fraction length of the matched
seconds. -/
def inlineAt (cs : List Char) : Option (Nat × Nat × Nat) :=
  match matchLit "retry in".toList cs with
  | none => none
  | some rest =>
    if (rest.takeWhile isJsWs).isEmpty then none
    else
      if ((rest.dropWhile isJsWs).takeWhile Char.isDigit).isEmpty then none
      else
        match inlineFracAt ((rest.dropWhile isJsWs).dropWhile Char.isDigit) with
        | none => none
        | some (fv, fl) =>
          some (decDigitsVal ((rest.dropWhile isJsWs).takeWhile Char.isDigit), fv, fl)

/-- Model of `extractRetryDelayMs`: the `retryDelay` provider hint wins;
otherwise the inline `retry in Ns` text; a non-positive match falls
through. -/
def extractRetryDelayMs (message : String) : Option Nat :=
  match scanFirst retryInfoAt message.toList with
  | some secs =>
    if 0 < secs then some (secs * 1000)
    else
      match scanFirst inlineAt message.toList with
      | some (ip, fv, fl) =>
        if 0 < ip ∨ 0 < fv then
          some (ip * 1000 + (fv * 1000 + 10 ^ fl - 1) / 10 ^ fl)
        else none
      | none => none
  | none =>
    match scanFirst inlineAt message.toList with
    | some (ip, fv, fl) =>
      if 0 < ip ∨ 0 < fv then
        some (ip * 1000 + (fv * 1000 + 10 ^ fl - 1) / 10 ^ fl)
      else none
    | none => none

/-- The retry loop of `generateWithRetry`: `attempt` is the 0-based
counter, the fuel is `MAX_TRANSIENT_RETRIES - attempt`, and the returned
list records every `sleep` delay. On the last attempt any error
propagates; earlier, a non-transient error propagates and a transient
one sleeps `extractRetryDelayMs(message) ?? 2000 * (attempt + 1)` and
retries. -/
def gwrGo (call : Nat → Except String ModelResult) :
    Nat → Nat → List Nat → (Except String ModelResult) × List Nat
  | attempt, 0, delays => (call attempt, delays)
  | attempt, left + 1, delays =>
    match call attempt with
    | .ok r => (.ok r, delays)
    | .error m =>
      if isRetryableGeminiError m = false then (.error m, delays)
      else
        gwrGo call (attempt + 1) left
          (delays ++ [(extractRetryDelayMs m).getD (2000 * (attempt + 1))])

def generateWithRetry (call : Nat → Except String ModelResult) :
    (Except String ModelResult) × List Nat :=
  gwrGo call 0 MAX_TRANSIENT_RETRIES []

def transientMsgC7a : String :=
  "429 RESOURCE_EXHAUSTED: quota exceeded, \"retryDelay\":\"7s\""

def transientMsgC7b : String :=
  "503 Service_Unavailable: please retry in 1.5s"

def modelResultC7 : ModelResult := ⟨"ok", [], [], none⟩

def callC7 : Nat → Except String ModelResult :=
  fun i =>
    if i = 0 then .error transientMsgC7a
    else if i = 1 then .error transientMsgC7b
    else .ok modelResultC7

/-! ## Claim C8: benchmark enumeration (src/benchmark.ts)

The strategy-run path of a cell is abstracted by an oracle
`run : model → strategy → presetId → iteration → Except String
PlaygroundResult` and wall-clock time by a duration oracle. -/

structure BenchmarkRunRecord where
  model : String
  strategy : String
  presetId : String
  iteration : Nat
  success : Bool
  durationMs : Nat
  attempts : Nat
  toolCalls : Nat
  repairedCalls : Nat
  error : Option String

deriving instance DecidableEq for BenchmarkRunRecord

/-- One benchmark cell: the record appended for `(model, strategy,
preset, iteration)`; a thrown strategy error yields the failure record
with `attempts = Math.max(1, (config.maxRetries ?? 0) + 1)`. -/
def benchCell (run : String → String → String → Nat → Except String PlaygroundResult)
    (dur : String → String → String → Nat → Nat) (maxRetries : Option Int)
    (model strategy presetId : String) (iteration : Nat) : BenchmarkRunRecord :=
  match run model strategy presetId iteration with
  | .ok result =>
    ⟨model, strategy, presetId, iteration, true, dur model strategy presetId iteration,
      result.attempts, result.result.toolCalls.length,
      (result.result.toolCalls.filter (fun t => t.repaired)).length, none⟩
  | .error message =>
    ⟨model, strategy, presetId, iteration, false, dur model strategy presetId iteration,
      (max 1 ((maxRetries.getD 0) + 1)).toNat, 0, 0, some message⟩

/-- Model of `runBenchmark`'s record accumulation: the four nested loops
(models, then strategies, then presets, then the 1-based iteration
counter) each appending one record per cell. -/
def runBenchmarkRecords (run : String → String → String → Nat → Except String PlaygroundResult)
    (dur : String → String → String → Nat → Nat) (maxRetries : Option Int)
    (models strategies presets : List String) (iterations : Nat) :
    List BenchmarkRunRecord :=
  models.foldl (fun acc model =>
    strategies.foldl (fun acc strategy =>
      presets.foldl (fun acc presetId =>
        (List.range iterations).foldl (fun acc k =>
          acc ++ [benchCell run dur maxRetries model strategy presetId (k + 1)]) acc)
        acc) acc) []

def runOracleC8 : String → String → String → Nat → Except String PlaygroundResult :=
  fun _ _ presetId _ =>
    if presetId = "bad" then .error "Run failed after 1 attempt(s): boom"
    else .ok ⟨⟨"structured-json", "done", [], []⟩, "m", "structured-json", 1, none⟩

/-! ## Claim C9: aggregation statistics (src/benchmark.ts)

JavaScript float arithmetic is modelled by exact rational arithmetic
(via `mkRat` and floor division, which the kernel evaluates). -/

/-- JavaScript `Math.round` (round half toward +∞) of a rational:
`⌊x + 1/2⌋`. -/
def jsRound (x : ℚ) : Int := Int.fdiv (2 * x.num + x.den) (2 * x.den)

/-- `round2(value) = Math.round(value * 100) / 100`. -/
def round2 (x : ℚ) : ℚ := mkRat (jsRound (mkRat (100 * x.num) x.den)) 100

/-- Model of `percentile`: index `max(0, min(len - 1, ceil(len * q) - 1))`
into the ascending-sorted values; `ceil(a/b) = -fdiv(-a, b)`. -/
def percentile (values : List Nat) (q : ℚ) : Nat :=
  if values.isEmpty then 0
  else values.getD (max 0 (min ((values.length : Int) - 1)
    (-(Int.fdiv (-((values.length : Int) * q.num)) (q.den : Int)) - 1))).toNat 0

/-- Ascending insertion for the duration sort (`.sort((a, b) => a - b)`). -/
def insertLe (x : Nat) : List Nat → List Nat
  | [] => [x]
  | y :: t => if x ≤ y then x :: y :: t else y :: insertLe x t

def sortAsc (l : List Nat) : List Nat := l.foldr insertLe []

structure BenchmarkAggregate where
  key : String
  strategy : String
  model : String
  totalRuns : Nat
  successRuns : Nat
  failureRuns : Nat
  successRate : ℚ
  errorRate : ℚ
  avgDurationMs : Int
  medianDurationMs : Nat
  p95DurationMs : Nat
  avgToolCalls : ℚ
  avgRepairedCalls : ℚ
  repairRate : ℚ
  toolUseRate : ℚ
  avgAttempts : ℚ

deriving instance DecidableEq for BenchmarkAggregate

def sumBy (f : BenchmarkRunRecord → Nat) (g : List BenchmarkRunRecord) : Nat :=
  (g.map f).sum

/-- One `Map` group of `buildAggregates`, keyed `model::strategy`,
aggregated per the source's formulas. -/
def aggregateOf (key : String) (group : List BenchmarkRunRecord) : BenchmarkAggregate :=
  ⟨key,
    ((group.head?).map (fun r => r.strategy)).getD "structured-json",
    ((group.head?).map (fun r => r.model)).getD "unknown-model",
    group.length,
    (group.filter (fun r => r.success)).length,
    group.length - (group.filter (fun r => r.success)).length,
    if 0 < group.length then
      mkRat ((group.filter (fun r => r.success)).length) group.length else 0,
    if 0 < group.length then
      mkRat (group.length - (group.filter (fun r => r.success)).length) group.length
    else 0,
    if 0 < group.length then
      jsRound (mkRat (sumBy (fun r => r.durationMs) group) group.length) else 0,
    percentile (sortAsc (group.map (fun r => r.durationMs))) (mkRat 1 2),
    percentile (sortAsc (group.map (fun r => r.durationMs))) (mkRat 19 20),
    if 0 < group.length then
      round2 (mkRat (sumBy (fun r => r.toolCalls) group) group.length) else 0,
    if 0 < group.length then
      round2 (mkRat (sumBy (fun r => r.repairedCalls) group) group.length) else 0,
    if 0 < sumBy (fun r => r.toolCalls) group then
      round2 (mkRat (sumBy (fun r => r.repairedCalls) group)
        (sumBy (fun r => r.toolCalls) group)) else 0,
    if 0 < group.length then
      round2 (mkRat ((group.filter (fun r => 0 < r.toolCalls)).length) group.length)
    else 0,
    if 0 < group.length then
      round2 (mkRat (sumBy (fun r => r.attempts) group) group.length) else 0⟩

/-- JavaScript `Map` upsert for the `model::strategy` grouping. -/
def upsertGroup (groups : List (String × List BenchmarkRunRecord)) (key : String)
    (rec : BenchmarkRunRecord) : List (String × List BenchmarkRunRecord) :=
  if groups.any (fun p => p.1 = key) then
    groups.map (fun p => if p.1 = key then (p.1, p.2 ++ [rec]) else p)
  else groups ++ [(key, [rec])]

def groupRecords (records : List BenchmarkRunRecord) :
    List (String × List BenchmarkRunRecord) :=
  records.foldl (fun gs r => upsertGroup gs (r.model ++ "::" ++ r.strategy) r) []

/-- The final sort of `buildAggregates` (by strategy, then model),
modelled as an insertion sort over the same key order. -/
def insertAgg (x : BenchmarkAggregate) :
    List BenchmarkAggregate → List BenchmarkAggregate
  | [] => [x]
  | y :: t =>
    if x.strategy < y.strategy ∨ (x.strategy = y.strategy ∧ ¬y.model < x.model) then
      x :: y :: t
    else y :: insertAgg x t

def buildAggregates (records : List BenchmarkRunRecord) : List BenchmarkAggregate :=
  ((groupRecords records).map (fun p => aggregateOf p.1 p.2)).foldr insertAgg []

def recordsC9 : List BenchmarkRunRecord :=
  [⟨"m", "structured-json", "p1", 1, true, 100, 1, 2, 1, none⟩,
    ⟨"m", "structured-json", "p2", 1, false, 300, 1, 0, 0, some "boom"⟩,
    ⟨"m", "structured-json", "p3", 1, true, 200, 1, 1, 0, none⟩]


/-! ## Round-trip lemmas: decimal digits -/

theorem skipWs_cons_of_not (c : Char) (l : List Char) (h : isWs c = false) :
    skipWs (c :: l) = c :: l := by
  simp [skipWs, List.dropWhile_cons, h]

theorem trimLeft_cons_of_not (c : Char) (l : List Char) (h : isJsWs c = false) :
    trimLeft (c :: l) = c :: l := by
  simp [trimLeft, List.dropWhile_cons, h]

theorem expectLit_self (lit rest : List Char) : expectLit lit (lit ++ rest) = some rest := by
  induction lit with
  | nil => simp [expectLit]
  | cons p ps ih => simpa [expectLit] using ih

theorem toNat_digitChar {d : Nat} (h : d < 10) : (Nat.digitChar d).toNat - 48 = d := by
  interval_cases d <;> decide

theorem isDigit_digitChar {d : Nat} (h : d < 10) : (Nat.digitChar d).isDigit = true := by
  interval_cases d <;> decide

theorem hexCharVal_digitChar {d : Nat} (h : d < 16) : hexCharVal (Nat.digitChar d) = some d := by
  interval_cases d <;> decide

theorem natToChars_ne_nil (n : Nat) : natToChars n ≠ [] := by
  unfold natToChars
  split
  · simp
  · rename_i h
    simpa using Nat.digits_ne_nil_iff_ne_zero.mpr h

theorem natToChars_all_digits (n : Nat) : ∀ c ∈ natToChars n, c.isDigit = true := by
  intro c hc
  unfold natToChars at hc
  split at hc
  · simp at hc
    simp [hc]
  · simp only [List.mem_map, List.mem_reverse] at hc
    obtain ⟨d, hd, rfl⟩ := hc
    exact isDigit_digitChar (Nat.digits_lt_base (by norm_num) hd)

theorem foldl_digits (bs : List Nat) (a : Nat) (h : ∀ d ∈ bs, d < 10) :
    (bs.map Nat.digitChar).foldl (fun acc d => 10 * acc + (d.toNat - 48)) a =
      a * 10 ^ bs.length + Nat.ofDigits 10 bs.reverse := by
  induction bs generalizing a with
  | nil => simp [Nat.ofDigits]
  | cons d ds ih =>
    have hd : d < 10 := h d (by simp)
    have hds : ∀ x ∈ ds, x < 10 := fun x hx => h x (by simp [hx])
    simp only [List.map_cons, List.foldl_cons, toNat_digitChar hd, List.reverse_cons,
      List.length_cons, ih _ hds, Nat.ofDigits_append, List.length_reverse]
    have : Nat.ofDigits 10 [d] = d := by simp [Nat.ofDigits]
    rw [this]
    ring

theorem charsToNat_natToChars (n : Nat) :
    (natToChars n).foldl (fun acc d => 10 * acc + (d.toNat - 48)) 0 = n := by
  unfold natToChars
  split
  · rename_i h; subst h; decide
  · rename_i h
    rw [show (Nat.digits 10 n).reverse.map Nat.digitChar =
        ((Nat.digits 10 n).reverse).map Nat.digitChar from rfl]
    rw [foldl_digits _ _ (fun d hd => Nat.digits_lt_base (by norm_num) (List.mem_reverse.mp hd))]
    simp [Nat.ofDigits_digits]

/-! ## Round-trip lemmas: takeWhile / dropWhile over a clean split -/

theorem takeWhile_append_all {p : Char → Bool} {r : List Char}
    (h2 : ∀ c ∈ r.head?, p c = false) :
    ∀ l : List Char, (∀ c ∈ l, p c = true) →
      (l ++ r).takeWhile p = l ∧ (l ++ r).dropWhile p = r := by
  intro l
  induction l with
  | nil =>
    intro _
    simp only [List.nil_append]
    cases r with
    | nil => simp
    | cons c cs =>
      have := h2 c (by simp)
      simp [List.takeWhile_cons, List.dropWhile_cons, this]
  | cons c cs ih =>
    intro h1
    have hc := h1 c (by simp)
    have ih' := ih (fun x hx => h1 x (by simp [hx]))
    simp [List.takeWhile_cons, List.dropWhile_cons, hc, ih'.1, ih'.2]

theorem parseNatTok_round (n : Nat) (rest : List Char) (h : numBoundaryOk rest) :
    parseNatTok (natToChars n ++ rest) = some (n, rest) := by
  have hsplit := takeWhile_append_all (p := Char.isDigit)
    (fun c hc => (h c hc).1) (natToChars n) (natToChars_all_digits n)
  have hne : (natToChars n).isEmpty = false := by
    cases hnc : natToChars n with
    | nil => exact absurd hnc (natToChars_ne_nil n)
    | cons a l => rfl
  unfold parseNatTok
  rw [hsplit.1, hsplit.2, hne]
  simp only [Bool.false_eq_true, if_false]
  cases hr : rest.head? with
  | none => simp [charsToNat_natToChars]
  | some c =>
    have hc := h c (by simp [hr])
    simp [hc.2.1, hc.2.2.1, hc.2.2.2, charsToNat_natToChars]

theorem natToChars_head_digit {n : Nat} {c : Char} {l : List Char}
    (h : natToChars n = c :: l) : c.isDigit = true :=
  natToChars_all_digits n c (by simp [h])

theorem digit_ne_minus {c : Char} (h : c.isDigit = true) : ¬c = '-' := by
  intro hc; subst hc; exact absurd h (by decide)

theorem parseNumberTok_round (n : Int) (rest : List Char) (h : numBoundaryOk rest) :
    parseNumberTok (intToChars n ++ rest) = some (Json.num n, rest) := by
  unfold intToChars
  by_cases hn : n < 0
  · rw [if_pos hn]
    unfold parseNumberTok
    simp [parseNatTok_round _ _ h, abs_of_neg hn]
  · rw [if_neg hn]
    obtain ⟨c, l, hnc⟩ : ∃ c l, natToChars n.toNat = c :: l := by
      cases hx : natToChars n.toNat with
      | nil => exact absurd hx (natToChars_ne_nil _)
      | cons a l => exact ⟨a, l, rfl⟩
    have hcdig : c.isDigit = true := natToChars_head_digit hnc
    rw [hnc]
    unfold parseNumberTok
    simp only [List.cons_append, if_neg (digit_ne_minus hcdig)]
    rw [← List.cons_append, ← hnc, parseNatTok_round _ _ h]
    have hval : ((n.toNat : Int)) = n := by omega
    simp [hval]

/-! ## Round-trip lemmas: string bodies -/

theorem parseStringBody_escape (s : List Char) (rest : List Char) :
    parseStringBody (escapeChars s ++ '"' :: rest) = some (s, rest) := by
  induction s with
  | nil =>
    show parseStringBody ('"' :: rest) = some ([], rest)
    unfold parseStringBody
    simp
  | cons c cs ih =>
    show parseStringBody ((escapeChar c ++ escapeChars cs) ++ '"' :: rest) = _
    rw [List.append_assoc]
    unfold escapeChar
    by_cases h1 : c = '"'
    · subst h1
      simp only [if_pos rfl, List.cons_append, List.nil_append]
      unfold parseStringBody
      simp [ih]
    by_cases h2 : c = '\\'
    · subst h2
      simp only [h1, if_false, if_pos rfl, List.cons_append, List.nil_append]
      unfold parseStringBody
      simp [ih]
    by_cases h3 : c = '\x08'
    · subst h3
      simp only [h1, h2, if_false, if_pos rfl, List.cons_append, List.nil_append]
      unfold parseStringBody
      simp [ih]
    by_cases h4 : c = '\t'
    · subst h4
      simp only [h1, h2, h3, if_false, if_pos rfl, List.cons_append, List.nil_append]
      unfold parseStringBody
      simp [ih]
    by_cases h5 : c = '\n'
    · subst h5
      simp only [h1, h2, h3, h4, if_false, if_pos rfl, List.cons_append, List.nil_append]
      unfold parseStringBody
      simp [ih]
    by_cases h6 : c = '\x0c'
    · subst h6
      simp only [h1, h2, h3, h4, h5, if_false, if_pos rfl, List.cons_append, List.nil_append]
      unfold parseStringBody
      simp [ih]
    by_cases h7 : c = '\r'
    · subst h7
      simp only [h1, h2, h3, h4, h5, h6, if_false, if_pos rfl, List.cons_append,
        List.nil_append]
      unfold parseStringBody
      simp [ih]
    by_cases h8 : c.toNat < 32
    · have hhi : c.toNat / 16 < 16 := by omega
      have hlo : c.toNat % 16 < 16 := by omega
      simp only [h1, h2, h3, h4, h5, h6, h7, if_false, if_pos h8, List.cons_append,
        List.nil_append]
      unfold parseStringBody
      simp only [if_neg (by decide : ¬('\\' : Char) = '"'), if_pos rfl]
      simp only [if_neg (by decide : ¬('u' : Char) = '"'),
        if_neg (by decide : ¬('u' : Char) = '\\'), if_neg (by decide : ¬('u' : Char) = '/'),
        if_neg (by decide : ¬('u' : Char) = 'b'), if_neg (by decide : ¬('u' : Char) = 'f'),
        if_neg (by decide : ¬('u' : Char) = 'n'), if_neg (by decide : ¬('u' : Char) = 'r'),
        if_neg (by decide : ¬('u' : Char) = 't'), if_pos rfl]
      rw [show hexCharVal '0' = some 0 from by decide, hexCharVal_digitChar hhi,
        hexCharVal_digitChar hlo]
      have hval : 0 * 4096 + 0 * 256 + c.toNat / 16 * 16 + c.toNat % 16 = c.toNat := by omega
      simp only [hval]
      have hsmall : c.toNat < 0xd800 ∨ 0xe000 ≤ c.toNat := Or.inl (by omega)
      rw [if_pos hsmall, Char.ofNat_toNat, ih]
      rfl
    · simp only [h1, h2, h3, h4, h5, h6, h7, h8, if_false, List.cons_append, List.nil_append]
      unfold parseStringBody
      simp [h1, h2, h8, ih]

theorem digit_not_ws {c : Char} (h : c.isDigit = true) : isWs c = false := by
  cases hw : isWs c
  · rfl
  · exfalso
    simp [isWs] at hw
    rcases hw with ((rfl | rfl) | rfl) | rfl <;> exact absurd h (by decide)

theorem digit_not_jsws {c : Char} (h : c.isDigit = true) : isJsWs c = false := by
  cases hw : isJsWs c
  · rfl
  · exfalso
    simp [isJsWs] at hw
    rcases hw with ((((rfl | rfl) | rfl) | rfl) | rfl) | rfl <;> exact absurd h (by decide)

theorem digit_headGood {c : Char} (h : c.isDigit = true) : headGood c :=
  ⟨digit_not_ws h, digit_not_jsws h,
    fun hc => absurd (hc ▸ h) (by decide), fun hc => absurd (hc ▸ h) (by decide),
    fun hc => absurd (hc ▸ h) (by decide), fun hc => absurd (hc ▸ h) (by decide),
    fun hc => absurd (hc ▸ h) (by decide)⟩

theorem digit_not_special {c : Char} (h : c.isDigit = true) :
    ¬c = '"' ∧ ¬c = '{' ∧ ¬c = '[' ∧ ¬c = 'n' ∧ ¬c = 't' ∧ ¬c = 'f' :=
  ⟨fun hc => absurd (hc ▸ h) (by decide), fun hc => absurd (hc ▸ h) (by decide),
    fun hc => absurd (hc ▸ h) (by decide), fun hc => absurd (hc ▸ h) (by decide),
    fun hc => absurd (hc ▸ h) (by decide), fun hc => absurd (hc ▸ h) (by decide)⟩

theorem stringifyVal_head (v : Json) :
    ∃ c t, stringifyVal v = c :: t ∧ headGood c := by
  cases v with
  | null => exact ⟨'n', _, rfl, by unfold headGood; refine ⟨rfl, rfl, ?_, ?_, ?_, ?_, ?_⟩ <;> decide⟩
  | bool b =>
    cases b
    · exact ⟨'f', _, rfl, by unfold headGood; refine ⟨rfl, rfl, ?_, ?_, ?_, ?_, ?_⟩ <;> decide⟩
    · exact ⟨'t', _, rfl, by unfold headGood; refine ⟨rfl, rfl, ?_, ?_, ?_, ?_, ?_⟩ <;> decide⟩
  | num n =>
    show ∃ c t, intToChars n = c :: t ∧ headGood c
    unfold intToChars
    by_cases hn : n < 0
    · rw [if_pos hn]
      exact ⟨'-', _, rfl, by unfold headGood; refine ⟨rfl, rfl, ?_, ?_, ?_, ?_, ?_⟩ <;> decide⟩
    · rw [if_neg hn]
      obtain ⟨c, l, hnc⟩ : ∃ c l, natToChars n.toNat = c :: l := by
        cases hx : natToChars n.toNat with
        | nil => exact absurd hx (natToChars_ne_nil _)
        | cons a l => exact ⟨a, l, rfl⟩
      exact ⟨c, l, hnc, digit_headGood (natToChars_head_digit hnc)⟩
  | str s =>
    exact ⟨'"', _, rfl, by unfold headGood; refine ⟨rfl, rfl, ?_, ?_, ?_, ?_, ?_⟩ <;> decide⟩
  | arr es =>
    exact ⟨'[', _, rfl, by unfold headGood; refine ⟨rfl, rfl, ?_, ?_, ?_, ?_, ?_⟩ <;> decide⟩
  | obj ms =>
    exact ⟨'{', _, rfl, by unfold headGood; refine ⟨rfl, rfl, ?_, ?_, ?_, ?_, ?_⟩ <;> decide⟩

theorem stringifyVal_last (v : Json) :
    ∃ t c, stringifyVal v = t ++ [c] ∧ isJsWs c = false := by
  cases v with
  | null => exact ⟨['n', 'u', 'l'], 'l', rfl, by decide⟩
  | bool b =>
    cases b
    · exact ⟨['f', 'a', 'l', 's'], 'e', rfl, by decide⟩
    · exact ⟨['t', 'r', 'u'], 'e', rfl, by decide⟩
  | num n =>
    show ∃ t c, intToChars n = t ++ [c] ∧ isJsWs c = false
    have hsplit : ∀ m : Nat, ∃ t c, natToChars m = t ++ [c] ∧ isJsWs c = false := by
      intro m
      have hne := natToChars_ne_nil m
      refine ⟨(natToChars m).dropLast, (natToChars m).getLast hne,
        (List.dropLast_append_getLast hne).symm, ?_⟩
      exact digit_not_jsws (natToChars_all_digits m _ (List.getLast_mem hne))
    unfold intToChars
    by_cases hn : n < 0
    · rw [if_pos hn]
      obtain ⟨t, c, ht, hc⟩ := hsplit n.natAbs
      exact ⟨'-' :: t, c, by rw [ht]; rfl, hc⟩
    · rw [if_neg hn]
      exact hsplit n.toNat
  | str s => exact ⟨'"' :: escapeChars s.data, '"', by rw [stringifyVal]; simp, by decide⟩
  | arr es => exact ⟨'[' :: stringifyElems es, ']', by rw [stringifyVal]; simp, by decide⟩
  | obj ms => exact ⟨'{' :: stringifyMems ms, '}', by rw [stringifyVal]; simp, by decide⟩

/-! ## Trim and fence no-op lemmas -/

theorem trimRight_append_last {t : List Char} {c : Char} (h : isJsWs c = false) :
    trimRight (t ++ [c]) = t ++ [c] := by
  unfold trimRight
  rw [List.reverse_append]
  simp [List.dropWhile_cons, h]

theorem jsTrim_eq_self {l : List Char} (hh : ∀ c t, l = c :: t → isJsWs c = false)
    (hl : ∃ t c, l = t ++ [c] ∧ isJsWs c = false) : jsTrim l = l := by
  obtain ⟨t, c, rfl, hc⟩ := hl
  unfold jsTrim
  rw [trimRight_append_last hc]
  cases t with
  | nil => simpa [trimLeft, List.dropWhile_cons] using by simp [hh c [] rfl]
  | cons a s =>
    have := hh a (s ++ [c]) rfl
    simp [trimLeft, List.dropWhile_cons, this]

theorem fence_not_leading {c : Char} {t : List Char} (h : ¬c = '\x60') :
    fenceChars.isPrefixOf (c :: t) = false := by
  have hfc : fenceChars = '\x60' :: '\x60' :: '\x60' :: [] := by decide
  rw [hfc]
  simp only [List.isPrefixOf]
  simp
  intro hc
  exact absurd hc.symm h

theorem unwrap_eq_self {l : List Char} (htrim : jsTrim l = l)
    (hhead : ∀ c t, l = c :: t → ¬c = '\x60') : unwrapMarkdownCodeFence l = l := by
  unfold unwrapMarkdownCodeFence
  rw [htrim]
  cases l with
  | nil => simp [show fenceChars.isPrefixOf ([] : List Char) = false from by decide]
  | cons c t => simp [fence_not_leading (hhead c t rfl)]

/-! ## Step lemmas for the fueled parser -/

theorem parseVal_quote (b : Bool) (fuel : Nat) (cs : List Char) :
    parseVal b (fuel + 1) ('"' :: cs) =
      (parseStringBody cs).map (fun p => (Json.str (String.mk p.1), p.2)) := by
  rw [parseVal, skipWs_cons_of_not _ _ (by decide)]
  simp

theorem parseVal_openBrace (b : Bool) (fuel : Nat) (cs : List Char) :
    parseVal b (fuel + 1) ('{' :: cs) =
      (if (skipWs cs).head? = some '}' then some (Json.obj .nil, (skipWs cs).tail)
       else (parseMems b fuel (skipWs cs)).map (fun p => (Json.obj p.1, p.2))) := by
  rw [parseVal, skipWs_cons_of_not _ _ (by decide)]
  simp

theorem parseVal_openBracket (b : Bool) (fuel : Nat) (cs : List Char) :
    parseVal b (fuel + 1) ('[' :: cs) =
      (if (skipWs cs).head? = some ']' then some (Json.arr .nil, (skipWs cs).tail)
       else (parseElems b fuel (skipWs cs)).map (fun p => (Json.arr p.1, p.2))) := by
  rw [parseVal, skipWs_cons_of_not _ _ (by decide)]
  simp

theorem parseVal_null (b : Bool) (fuel : Nat) (rest : List Char) :
    parseVal b (fuel + 1) ('n' :: 'u' :: 'l' :: 'l' :: rest) = some (Json.null, rest) := by
  rw [parseVal, skipWs_cons_of_not _ _ (by decide)]
  have := expectLit_self ['u', 'l', 'l'] rest
  simp at this
  simp [this]

theorem parseVal_true (b : Bool) (fuel : Nat) (rest : List Char) :
    parseVal b (fuel + 1) ('t' :: 'r' :: 'u' :: 'e' :: rest) = some (Json.bool true, rest) := by
  rw [parseVal, skipWs_cons_of_not _ _ (by decide)]
  have := expectLit_self ['r', 'u', 'e'] rest
  simp at this
  simp [this]

theorem parseVal_false (b : Bool) (fuel : Nat) (rest : List Char) :
    parseVal b (fuel + 1) ('f' :: 'a' :: 'l' :: 's' :: 'e' :: rest) =
      some (Json.bool false, rest) := by
  rw [parseVal, skipWs_cons_of_not _ _ (by decide)]
  have := expectLit_self ['a', 'l', 's', 'e'] rest
  simp at this
  simp [this]

theorem parseVal_number (b : Bool) (fuel : Nat) (c : Char) (cs : List Char)
    (hws : isWs c = false) (h1 : ¬c = '"') (h2 : ¬c = '{') (h3 : ¬c = '[')
    (h4 : ¬c = 'n') (h5 : ¬c = 't') (h6 : ¬c = 'f') :
    parseVal b (fuel + 1) (c :: cs) = parseNumberTok (c :: cs) := by
  rw [parseVal, skipWs_cons_of_not _ _ hws]
  simp [h1, h2, h3, h4, h5, h6]

theorem parseVal_closeSquare (b : Bool) (fuel : Nat) (r : List Char) :
    parseVal b fuel (']' :: r) = none := by
  cases fuel with
  | zero => rfl
  | succ n =>
    rw [parseVal, skipWs_cons_of_not _ _ (by decide)]
    simp [parseNumberTok, parseNatTok]

theorem parseElems_closeSquare (b : Bool) (fuel : Nat) (r : List Char) :
    parseElems b fuel (']' :: r) = none := by
  cases fuel with
  | zero => rfl
  | succ n => rw [parseElems, parseVal_closeSquare]

theorem parseKey_closeBrace (b : Bool) (r : List Char) :
    parseKey b ('}' :: r) = none := by
  unfold parseKey
  simp [isIdentChar, List.takeWhile_cons]

theorem parseKey_quote (b : Bool) (cs : List Char) :
    parseKey b ('"' :: cs) = (parseStringBody cs).map (fun p => (String.mk p.1, p.2)) := by
  unfold parseKey
  simp

theorem parseMems_closeBrace (b : Bool) (fuel : Nat) (r : List Char) :
    parseMems b fuel ('}' :: r) = none := by
  cases fuel with
  | zero => rfl
  | succ n =>
    rw [parseMems, skipWs_cons_of_not _ _ (by decide), parseKey_closeBrace]

theorem valRestOk_cons {v : Json} {c : Char} {r : List Char} (h1 : c.isDigit = false)
    (h2 : ¬c = '.') (h3 : ¬c = 'e') (h4 : ¬c = 'E') : valRestOk v (c :: r) := by
  cases v <;> try trivial
  show numBoundaryOk (c :: r)
  intro x hx
  simp only [List.head?_cons, Option.mem_def, Option.some.injEq] at hx
  subst hx
  exact ⟨h1, h2, h3, h4⟩

theorem stringifyElems_cons_nil (v : Json) :
    stringifyElems (.cons v .nil) = stringifyVal v := by
  rw [stringifyElems]

theorem stringifyElems_cons_cons (v v2 : Json) (tl2 : JsonElems) :
    stringifyElems (.cons v (.cons v2 tl2)) =
      stringifyVal v ++ ',' :: stringifyElems (.cons v2 tl2) := by
  rw [stringifyElems]
  intro h
  cases h

theorem stringifyMems_cons_nil (k : String) (v : Json) :
    stringifyMems (.cons k v .nil) =
      '"' :: (escapeChars k.data ++ '"' :: ':' :: stringifyVal v) := by
  rw [stringifyMems]

theorem stringifyMems_cons_cons (k : String) (v : Json) (k2 : String) (v2 : Json)
    (tl2 : JsonMems) :
    stringifyMems (.cons k v (.cons k2 v2 tl2)) =
      ('"' :: (escapeChars k.data ++ '"' :: ':' :: stringifyVal v)) ++
        ',' :: stringifyMems (.cons k2 v2 tl2) := by
  rw [stringifyMems]
  intro h
  cases h

theorem stringifyElems_head (v : Json) (tl : JsonElems) :
    ∃ c t, stringifyElems (.cons v tl) = c :: t ∧ headGood c := by
  obtain ⟨c, t, hv, hc⟩ := stringifyVal_head v
  cases tl with
  | nil => exact ⟨c, t, by rw [stringifyElems_cons_nil, hv], hc⟩
  | cons v2 tl2 =>
    exact ⟨c, t ++ ',' :: stringifyElems (.cons v2 tl2),
      by rw [stringifyElems_cons_cons, hv]; simp, hc⟩

theorem stringifyMems_head (k : String) (v : Json) (tl : JsonMems) :
    ∃ t, stringifyMems (.cons k v tl) = '"' :: t := by
  cases tl with
  | nil => exact ⟨_, stringifyMems_cons_nil k v⟩
  | cons k2 v2 tl2 =>
    exact ⟨(escapeChars k.data ++ '"' :: ':' :: stringifyVal v) ++
      ',' :: stringifyMems (.cons k2 v2 tl2), by rw [stringifyMems_cons_cons]; rfl⟩

theorem stringifyVal_length_pos (v : Json) : 0 < (stringifyVal v).length := by
  obtain ⟨c, t, hv, _⟩ := stringifyVal_head v
  rw [hv]
  simp

/-! ## The round-trip theorem for canonical output -/

theorem parse_stringify_aux : ∀ fuel : Nat,
    (∀ (b : Bool) (v : Json) (rest : List Char), (stringifyVal v).length < fuel →
      valRestOk v rest → parseVal b fuel (stringifyVal v ++ rest) = some (v, rest)) ∧
    (∀ (b : Bool) (es : JsonElems) (rest : List Char), es ≠ .nil →
      (stringifyElems es).length + 1 < fuel →
      parseElems b fuel (stringifyElems es ++ ']' :: rest) = some (es, rest)) ∧
    (∀ (b : Bool) (es : JsonElems) (rest : List Char), es ≠ .nil →
      (stringifyElems es).length + 1 < fuel →
      parseElems b fuel (stringifyElems es ++ ',' :: ']' :: rest) =
        if b = true then some (es, rest) else none) ∧
    (∀ (b : Bool) (ms : JsonMems) (rest : List Char), ms ≠ .nil →
      (stringifyMems ms).length + 1 < fuel →
      parseMems b fuel (stringifyMems ms ++ '}' :: rest) = some (ms, rest)) ∧
    (∀ (b : Bool) (ms : JsonMems) (rest : List Char), ms ≠ .nil →
      (stringifyMems ms).length + 1 < fuel →
      parseMems b fuel (stringifyMems ms ++ ',' :: '}' :: rest) =
        if b = true then some (ms, rest) else none) := by
  intro fuel
  induction fuel with
  | zero =>
    refine ⟨fun b v rest h _ => absurd h (by omega), fun b es rest _ h => absurd h (by omega),
      fun b es rest _ h => absurd h (by omega), fun b ms rest _ h => absurd h (by omega),
      fun b ms rest _ h => absurd h (by omega)⟩
  | succ fuel ih =>
    obtain ⟨ihV, ihE, ihEC, ihM, ihMC⟩ := ih
    refine ⟨?_, ?_, ?_, ?_, ?_⟩
    -- parseVal on a stringified value
    · intro b v rest hlen hrest
      cases v with
      | null =>
        rw [show stringifyVal .null = ['n', 'u', 'l', 'l'] from by rw [stringifyVal]]
        exact parseVal_null b fuel rest
      | bool bb =>
        cases bb
        · rw [show stringifyVal (.bool false) = ['f', 'a', 'l', 's', 'e'] from by
            rw [stringifyVal]]
          exact parseVal_false b fuel rest
        · rw [show stringifyVal (.bool true) = ['t', 'r', 'u', 'e'] from by rw [stringifyVal]]
          exact parseVal_true b fuel rest
      | num n =>
        have hs : stringifyVal (.num n) = intToChars n := by rw [stringifyVal]
        rw [hs]
        have hrest' : numBoundaryOk rest := hrest
        by_cases hn : n < 0
        · have hic : intToChars n = '-' :: natToChars n.natAbs := by
            unfold intToChars; rw [if_pos hn]
          rw [hic, List.cons_append,
            parseVal_number b fuel '-' _ (by decide) (by decide) (by decide) (by decide)
              (by decide) (by decide) (by decide),
            ← List.cons_append, ← hic]
          exact parseNumberTok_round n rest hrest'
        · have hic : intToChars n = natToChars n.toNat := by
            unfold intToChars; rw [if_neg hn]
          obtain ⟨c, l, hnc⟩ : ∃ c l, natToChars n.toNat = c :: l := by
            cases hx : natToChars n.toNat with
            | nil => exact absurd hx (natToChars_ne_nil _)
            | cons a t => exact ⟨a, t, rfl⟩
          have hdig := natToChars_head_digit hnc
          obtain ⟨hq, hbr, hbk, hlitn, hlitt, hlitf⟩ := digit_not_special hdig
          rw [hic, hnc, List.cons_append,
            parseVal_number b fuel c _ (digit_not_ws hdig) hq hbr hbk hlitn hlitt hlitf,
            ← List.cons_append, ← hnc, ← hic]
          exact parseNumberTok_round n rest hrest'
      | str s =>
        have hs : stringifyVal (.str s) = '"' :: (escapeChars s.data ++ ['"']) := by
          rw [stringifyVal]
        have hesc := parseStringBody_escape s.data rest
        have hms : String.mk s.data = s := rfl
        rw [hs, List.cons_append, List.append_assoc, parseVal_quote]
        simp [hesc, hms]
      | arr es =>
        cases es with
        | nil =>
          rw [show stringifyVal (.arr .nil) = ['[', ']'] from by
            rw [stringifyVal, stringifyElems]; rfl]
          rw [show (['[', ']'] ++ rest) = '[' :: (']' :: rest) from rfl, parseVal_openBracket,
            skipWs_cons_of_not _ _ (by decide)]
          simp
        | cons v tl =>
          have hs : stringifyVal (.arr (.cons v tl)) =
              '[' :: (stringifyElems (.cons v tl) ++ [']']) := by rw [stringifyVal]
          have hlen2 : (stringifyElems (.cons v tl)).length + 1 < fuel := by
            rw [hs] at hlen
            simp at hlen
            omega
          obtain ⟨c, t, he, hc⟩ := stringifyElems_head v tl
          have hsk : skipWs (stringifyElems (.cons v tl) ++ ']' :: rest) =
              stringifyElems (.cons v tl) ++ ']' :: rest := by
            rw [he, List.cons_append]
            exact skipWs_cons_of_not _ _ hc.1
          have hhd : (stringifyElems (.cons v tl) ++ ']' :: rest).head? = some c := by
            rw [he]; simp
          have hrec := ihE b (.cons v tl) rest (by intro hx; cases hx) hlen2
          rw [hs, List.cons_append, List.append_assoc,
            show ([']'] ++ rest) = ']' :: rest from rfl, parseVal_openBracket, hsk]
          simp [hhd, hc.2.2.1, hrec]
      | obj ms =>
        cases ms with
        | nil =>
          rw [show stringifyVal (.obj .nil) = ['{', '}'] from by
            rw [stringifyVal, stringifyMems]; rfl]
          rw [show (['{', '}'] ++ rest) = '{' :: ('}' :: rest) from rfl, parseVal_openBrace,
            skipWs_cons_of_not _ _ (by decide)]
          simp
        | cons k v tl =>
          have hs : stringifyVal (.obj (.cons k v tl)) =
              '{' :: (stringifyMems (.cons k v tl) ++ ['}']) := by rw [stringifyVal]
          have hlen2 : (stringifyMems (.cons k v tl)).length + 1 < fuel := by
            rw [hs] at hlen
            simp at hlen
            omega
          obtain ⟨t, he⟩ := stringifyMems_head k v tl
          have hsk : skipWs (stringifyMems (.cons k v tl) ++ '}' :: rest) =
              stringifyMems (.cons k v tl) ++ '}' :: rest := by
            rw [he, List.cons_append]
            exact skipWs_cons_of_not _ _ (by decide)
          have hhd : (stringifyMems (.cons k v tl) ++ '}' :: rest).head? = some '"' := by
            rw [he]; simp
          have hrec := ihM b (.cons k v tl) rest (by intro hx; cases hx) hlen2
          rw [hs, List.cons_append, List.append_assoc,
            show (['}'] ++ rest) = '}' :: rest from rfl, parseVal_openBrace, hsk]
          simp [hhd, hrec]
    -- parseElems on stringified elements followed by ']'
    · intro b es rest hne hlen
      cases es with
      | nil => exact absurd rfl hne
      | cons v tl =>
        cases tl with
        | nil =>
          have hs := stringifyElems_cons_nil v
          have hlenv : (stringifyVal v).length < fuel := by rw [hs] at hlen; omega
          have hv := ihV b v (']' :: rest) hlenv
            (valRestOk_cons (by decide) (by decide) (by decide) (by decide))
          have hsk : skipWs (']' :: rest) = ']' :: rest := skipWs_cons_of_not _ _ (by decide)
          rw [hs, parseElems, hv]
          simp [hsk]
        | cons v2 tl2 =>
          have hs := stringifyElems_cons_cons v v2 tl2
          have hvpos := stringifyVal_length_pos v
          have hlen2 : (stringifyElems (.cons v2 tl2)).length + 1 < fuel := by
            rw [hs] at hlen
            simp at hlen
            omega
          have hlenv : (stringifyVal v).length < fuel := by
            rw [hs] at hlen
            simp at hlen
            omega
          obtain ⟨c, t, he, hc⟩ := stringifyElems_head v2 tl2
          have hv := ihV b v (',' :: (stringifyElems (.cons v2 tl2) ++ ']' :: rest)) hlenv
            (valRestOk_cons (by decide) (by decide) (by decide) (by decide))
          have hsk1 : skipWs (',' :: (stringifyElems (.cons v2 tl2) ++ ']' :: rest)) =
              ',' :: (stringifyElems (.cons v2 tl2) ++ ']' :: rest) :=
            skipWs_cons_of_not _ _ (by decide)
          have hsk2 : skipWs (stringifyElems (.cons v2 tl2) ++ ']' :: rest) =
              stringifyElems (.cons v2 tl2) ++ ']' :: rest := by
            rw [he, List.cons_append]
            exact skipWs_cons_of_not _ _ hc.1
          have hhd : (stringifyElems (.cons v2 tl2) ++ ']' :: rest).head? = some c := by
            rw [he]; simp
          have hrec := ihE b (.cons v2 tl2) rest (by intro hx; cases hx) hlen2
          rw [hs, List.append_assoc, List.cons_append, parseElems, hv]
          simp [hsk1, hsk2, hhd, hc.2.2.1, hrec]
    -- parseElems on stringified elements followed by ',' ']'
    · intro b es rest hne hlen
      cases es with
      | nil => exact absurd rfl hne
      | cons v tl =>
        cases tl with
        | nil =>
          have hs := stringifyElems_cons_nil v
          have hlenv : (stringifyVal v).length < fuel := by rw [hs] at hlen; omega
          have hv := ihV b v (',' :: ']' :: rest) hlenv
            (valRestOk_cons (by decide) (by decide) (by decide) (by decide))
          have hsk1 : skipWs (',' :: ']' :: rest) = ',' :: ']' :: rest :=
            skipWs_cons_of_not _ _ (by decide)
          have hsk2 : skipWs (']' :: rest) = ']' :: rest := skipWs_cons_of_not _ _ (by decide)
          rw [hs, parseElems, hv]
          by_cases hb : b = true
          · simp [hsk1, hsk2, hb]
          · simp [hsk1, hsk2, hb, parseElems_closeSquare]
        | cons v2 tl2 =>
          have hs := stringifyElems_cons_cons v v2 tl2
          have hvpos := stringifyVal_length_pos v
          have hlen2 : (stringifyElems (.cons v2 tl2)).length + 1 < fuel := by
            rw [hs] at hlen
            simp at hlen
            omega
          have hlenv : (stringifyVal v).length < fuel := by
            rw [hs] at hlen
            simp at hlen
            omega
          obtain ⟨c, t, he, hc⟩ := stringifyElems_head v2 tl2
          have hv := ihV b v (',' :: (stringifyElems (.cons v2 tl2) ++ ',' :: ']' :: rest))
            hlenv (valRestOk_cons (by decide) (by decide) (by decide) (by decide))
          have hsk1 : skipWs (',' :: (stringifyElems (.cons v2 tl2) ++ ',' :: ']' :: rest)) =
              ',' :: (stringifyElems (.cons v2 tl2) ++ ',' :: ']' :: rest) :=
            skipWs_cons_of_not _ _ (by decide)
          have hsk2 : skipWs (stringifyElems (.cons v2 tl2) ++ ',' :: ']' :: rest) =
              stringifyElems (.cons v2 tl2) ++ ',' :: ']' :: rest := by
            rw [he, List.cons_append]
            exact skipWs_cons_of_not _ _ hc.1
          have hhd : (stringifyElems (.cons v2 tl2) ++ ',' :: ']' :: rest).head? = some c := by
            rw [he]; simp
          have hrec := ihEC b (.cons v2 tl2) rest (by intro hx; cases hx) hlen2
          rw [hs, List.append_assoc, List.cons_append, parseElems, hv]
          cases b
          · simp at hrec
            simp [hsk1, hsk2, hhd, hc.2.2.1, hrec]
          · simp at hrec
            simp [hsk1, hsk2, hhd, hc.2.2.1, hrec]
    -- parseMems on stringified members followed by '}'
    · intro b ms rest hne hlen
      cases ms with
      | nil => exact absurd rfl hne
      | cons k v tl =>
        cases tl with
        | nil =>
          have hs := stringifyMems_cons_nil k v
          have hlenv : (stringifyVal v).length < fuel := by
            rw [hs] at hlen
            simp at hlen
            omega
          have hesc := parseStringBody_escape k.data (':' :: (stringifyVal v ++ '}' :: rest))
          have hms : String.mk k.data = k := rfl
          have hv := ihV b v ('}' :: rest) hlenv
            (valRestOk_cons (by decide) (by decide) (by decide) (by decide))
          have hskq : skipWs ('"' :: (escapeChars k.data ++ '"' :: ':' :: stringifyVal v) ++
              '}' :: rest) = '"' :: (escapeChars k.data ++ '"' :: ':' :: stringifyVal v) ++
              '}' :: rest := by
            rw [List.cons_append]
            exact skipWs_cons_of_not _ _ (by decide)
          have hskc : skipWs (':' :: (stringifyVal v ++ '}' :: rest)) =
              ':' :: (stringifyVal v ++ '}' :: rest) := skipWs_cons_of_not _ _ (by decide)
          have hskb : skipWs ('}' :: rest) = '}' :: rest := skipWs_cons_of_not _ _ (by decide)
          rw [hs, parseMems]
          simp only [List.append_assoc, List.cons_append]
          rw [skipWs_cons_of_not _ _ (by decide), parseKey_quote, hesc]
          simp [hms, hskc, hv, hskb]
        | cons k2 v2 tl2 =>
          have hs := stringifyMems_cons_cons k v k2 v2 tl2
          have hvpos := stringifyVal_length_pos v
          have hlen2 : (stringifyMems (.cons k2 v2 tl2)).length + 1 < fuel := by
            rw [hs] at hlen
            simp at hlen
            omega
          have hlenv : (stringifyVal v).length < fuel := by
            rw [hs] at hlen
            simp at hlen
            omega
          obtain ⟨t, he⟩ := stringifyMems_head k2 v2 tl2
          have hesc := parseStringBody_escape k.data
            (':' :: (stringifyVal v ++ ',' :: (stringifyMems (.cons k2 v2 tl2) ++ '}' :: rest)))
          have hms : String.mk k.data = k := rfl
          have hv := ihV b v
            (',' :: (stringifyMems (.cons k2 v2 tl2) ++ '}' :: rest)) hlenv
            (valRestOk_cons (by decide) (by decide) (by decide) (by decide))
          have hskc : skipWs (':' :: (stringifyVal v ++
              ',' :: (stringifyMems (.cons k2 v2 tl2) ++ '}' :: rest))) =
              ':' :: (stringifyVal v ++
              ',' :: (stringifyMems (.cons k2 v2 tl2) ++ '}' :: rest)) :=
            skipWs_cons_of_not _ _ (by decide)
          have hskm : skipWs (',' :: (stringifyMems (.cons k2 v2 tl2) ++ '}' :: rest)) =
              ',' :: (stringifyMems (.cons k2 v2 tl2) ++ '}' :: rest) :=
            skipWs_cons_of_not _ _ (by decide)
          have hsk2 : skipWs (stringifyMems (.cons k2 v2 tl2) ++ '}' :: rest) =
              stringifyMems (.cons k2 v2 tl2) ++ '}' :: rest := by
            rw [he, List.cons_append]
            exact skipWs_cons_of_not _ _ (by decide)
          have hhd : (stringifyMems (.cons k2 v2 tl2) ++ '}' :: rest).head? = some '"' := by
            rw [he]; simp
          have hrec := ihM b (.cons k2 v2 tl2) rest (by intro hx; cases hx) hlen2
          rw [hs, parseMems]
          simp only [List.append_assoc, List.cons_append]
          rw [skipWs_cons_of_not _ _ (by decide), parseKey_quote, hesc]
          simp [hms, hskc, hv, hskm, hsk2, hhd, hrec]
    -- parseMems on stringified members followed by ',' '}'
    · intro b ms rest hne hlen
      cases ms with
      | nil => exact absurd rfl hne
      | cons k v tl =>
        cases tl with
        | nil =>
          have hs := stringifyMems_cons_nil k v
          have hlenv : (stringifyVal v).length < fuel := by
            rw [hs] at hlen
            simp at hlen
            omega
          have hesc := parseStringBody_escape k.data
            (':' :: (stringifyVal v ++ ',' :: '}' :: rest))
          have hms : String.mk k.data = k := rfl
          have hv := ihV b v (',' :: '}' :: rest) hlenv
            (valRestOk_cons (by decide) (by decide) (by decide) (by decide))
          have hskc : skipWs (':' :: (stringifyVal v ++ ',' :: '}' :: rest)) =
              ':' :: (stringifyVal v ++ ',' :: '}' :: rest) :=
            skipWs_cons_of_not _ _ (by decide)
          have hskm : skipWs (',' :: '}' :: rest) = ',' :: '}' :: rest :=
            skipWs_cons_of_not _ _ (by decide)
          have hskb : skipWs ('}' :: rest) = '}' :: rest := skipWs_cons_of_not _ _ (by decide)
          rw [hs, parseMems]
          simp only [List.append_assoc, List.cons_append]
          rw [skipWs_cons_of_not _ _ (by decide), parseKey_quote, hesc]
          cases b
          · simp [hms, hskc, hv, hskm, hskb, parseMems_closeBrace]
          · simp [hms, hskc, hv, hskm, hskb]
        | cons k2 v2 tl2 =>
          have hs := stringifyMems_cons_cons k v k2 v2 tl2
          have hvpos := stringifyVal_length_pos v
          have hlen2 : (stringifyMems (.cons k2 v2 tl2)).length + 1 < fuel := by
            rw [hs] at hlen
            simp at hlen
            omega
          have hlenv : (stringifyVal v).length < fuel := by
            rw [hs] at hlen
            simp at hlen
            omega
          obtain ⟨t, he⟩ := stringifyMems_head k2 v2 tl2
          have hesc := parseStringBody_escape k.data
            (':' :: (stringifyVal v ++
              ',' :: (stringifyMems (.cons k2 v2 tl2) ++ ',' :: '}' :: rest)))
          have hms : String.mk k.data = k := rfl
          have hv := ihV b v
            (',' :: (stringifyMems (.cons k2 v2 tl2) ++ ',' :: '}' :: rest)) hlenv
            (valRestOk_cons (by decide) (by decide) (by decide) (by decide))
          have hskc : skipWs (':' :: (stringifyVal v ++
              ',' :: (stringifyMems (.cons k2 v2 tl2) ++ ',' :: '}' :: rest))) =
              ':' :: (stringifyVal v ++
              ',' :: (stringifyMems (.cons k2 v2 tl2) ++ ',' :: '}' :: rest)) :=
            skipWs_cons_of_not _ _ (by decide)
          have hskm : skipWs (',' :: (stringifyMems (.cons k2 v2 tl2) ++ ',' :: '}' :: rest)) =
              ',' :: (stringifyMems (.cons k2 v2 tl2) ++ ',' :: '}' :: rest) :=
            skipWs_cons_of_not _ _ (by decide)
          have hsk2 : skipWs (stringifyMems (.cons k2 v2 tl2) ++ ',' :: '}' :: rest) =
              stringifyMems (.cons k2 v2 tl2) ++ ',' :: '}' :: rest := by
            rw [he, List.cons_append]
            exact skipWs_cons_of_not _ _ (by decide)
          have hhd : (stringifyMems (.cons k2 v2 tl2) ++ ',' :: '}' :: rest).head? =
              some '"' := by
            rw [he]; simp
          have hrec := ihMC b (.cons k2 v2 tl2) rest (by intro hx; cases hx) hlen2
          rw [hs, parseMems]
          simp only [List.append_assoc, List.cons_append]
          rw [skipWs_cons_of_not _ _ (by decide), parseKey_quote, hesc]
          cases b
          · simp at hrec
            simp [hms, hskc, hv, hskm, hsk2, hhd, hrec]
          · simp at hrec
            simp [hms, hskc, hv, hskm, hsk2, hhd, hrec]

/-! ## Pipeline-level round-trip lemmas -/

theorem valRestOk_nil (v : Json) : valRestOk v [] := by
  cases v <;> try trivial
  intro c hc
  simp at hc

theorem parseVal_stringify (b : Bool) (v : Json) (rest : List Char) (h : valRestOk v rest) :
    parseVal b (parseFuel (stringifyVal v ++ rest)) (stringifyVal v ++ rest) =
      some (v, rest) := by
  apply (parse_stringify_aux (parseFuel (stringifyVal v ++ rest))).1
  · unfold parseFuel
    simp
    omega
  · exact h

theorem jsonParseStrict_stringify (v : Json) : jsonParseStrict (stringifyVal v) = some v := by
  unfold jsonParseStrict
  have h := parseVal_stringify false v [] (valRestOk_nil v)
  rw [List.append_nil] at h
  rw [h]
  simp [skipWs]

theorem isWs_imp_isJsWs {c : Char} (h : isWs c = true) : isJsWs c = true := by
  simp [isWs] at h
  rcases h with ((rfl | rfl) | rfl) | rfl <;> decide

theorem dropWhile_head_not (p : Char → Bool) (l : List Char) :
    ∀ c, (l.dropWhile p).head? = some c → p c = false := by
  induction l with
  | nil => intro c hc; simp at hc
  | cons a t ih =>
    intro c hc
    rw [List.dropWhile_cons] at hc
    by_cases hp : p a = true
    · rw [if_pos hp] at hc
      exact ih c hc
    · rw [if_neg hp] at hc
      simp at hc
      subst hc
      simpa using hp

theorem trimLeft_cons_ws {c : Char} (l : List Char) (h : isJsWs c = true) :
    trimLeft (c :: l) = trimLeft l := by
  simp [trimLeft, List.dropWhile_cons, h]

theorem trimRight_append_ws {c : Char} (l : List Char) (h : isJsWs c = true) :
    trimRight (l ++ [c]) = trimRight l := by
  unfold trimRight
  rw [List.reverse_append]
  simp [List.dropWhile_cons, h]

theorem trimRight_append_left {A B : List Char}
    (h : ∃ t c, A = t ++ [c] ∧ isJsWs c = false) :
    trimRight (A ++ B) = A ++ trimRight B := by
  obtain ⟨t, c, rfl, hc⟩ := h
  unfold trimRight
  have h1 : ((t ++ [c]) ++ B).reverse = B.reverse ++ (c :: t.reverse) := by simp
  rw [h1, List.dropWhile_append]
  by_cases hB : (B.reverse.dropWhile isJsWs).isEmpty = true
  · rw [if_pos hB]
    rw [List.isEmpty_iff] at hB
    rw [hB]
    simp [List.dropWhile_cons, hc]
  · rw [if_neg hB]
    simp

theorem trimRight_shape (l : List Char) :
    trimRight l = [] ∨ ∃ t c, trimRight l = t ++ [c] ∧ isJsWs c = false := by
  cases hd : (l.reverse.dropWhile isJsWs) with
  | nil => left; simp [trimRight, hd]
  | cons c t =>
    right
    refine ⟨t.reverse, c, ?_, ?_⟩
    · simp [trimRight, hd]
    · exact dropWhile_head_not isJsWs l.reverse c (by simp [hd])

theorem jsTrim_stringify (v : Json) : jsTrim (stringifyVal v) = stringifyVal v := by
  obtain ⟨c, t, hv, hc⟩ := stringifyVal_head v
  apply jsTrim_eq_self
  · intro c2 t2 h2
    rw [hv] at h2
    cases h2
    exact hc.2.1
  · exact stringifyVal_last v

theorem unwrap_stringify (v : Json) :
    unwrapMarkdownCodeFence (stringifyVal v) = stringifyVal v := by
  obtain ⟨c, t, hv, hc⟩ := stringifyVal_head v
  apply unwrap_eq_self (jsTrim_stringify v)
  intro c2 t2 h2
  rw [hv] at h2
  cases h2
  exact hc.2.2.2.2.2.2

/-- C3 part (a): strict round-trip through the full pipeline. -/
theorem parseJsonWithRepair_stringify (v : Json) :
    parseJsonWithRepair (jsonStringify v) = .ok v := by
  unfold parseJsonWithRepair normalizeInput jsonStringify
  have htl : (String.mk (stringifyVal v)).toList = stringifyVal v := rfl
  rw [htl, unwrap_stringify, jsTrim_stringify]
  obtain ⟨c, t, hv, _⟩ := stringifyVal_head v
  rw [if_neg (by rw [hv]; simp)]
  rw [jsonParseStrict_stringify]

/-! C3 parts (c): one trailing comma inserted before the final closing
brace / bracket of a nonempty serialized object / array. -/

theorem stringify_obj_comma_shape (ms : JsonMems) :
    (stringifyVal (.obj ms)).dropLast ++ [',', '}'] =
      '{' :: (stringifyMems ms ++ ',' :: '}' :: []) := by
  rw [show stringifyVal (.obj ms) = '{' :: (stringifyMems ms ++ ['}']) from by
    rw [stringifyVal]]
  rw [show '{' :: (stringifyMems ms ++ ['}']) = ('{' :: stringifyMems ms) ++ ['}'] from by
    simp]
  rw [List.dropLast_concat]
  simp

theorem stringify_arr_comma_shape (es : JsonElems) :
    (stringifyVal (.arr es)).dropLast ++ [',', ']'] =
      '[' :: (stringifyElems es ++ ',' :: ']' :: []) := by
  rw [show stringifyVal (.arr es) = '[' :: (stringifyElems es ++ [']']) from by
    rw [stringifyVal]]
  rw [show '[' :: (stringifyElems es ++ [']']) = ('[' :: stringifyElems es) ++ [']'] from by
    simp]
  rw [List.dropLast_concat]
  simp

theorem parseVal_obj_comma (b : Bool) (ms : JsonMems) (hne : ms ≠ .nil) (fuel : Nat)
    (hfuel : (stringifyMems ms).length + 2 < fuel) :
    parseVal b (fuel + 1) ('{' :: (stringifyMems ms ++ ',' :: '}' :: [])) =
      if b = true then some (Json.obj ms, []) else none := by
  obtain ⟨k, v, tl, rfl⟩ : ∃ k v tl, ms = JsonMems.cons k v tl := by
    cases ms with
    | nil => exact absurd rfl hne
    | cons k v tl => exact ⟨k, v, tl, rfl⟩
  obtain ⟨t, he⟩ := stringifyMems_head k v tl
  rw [parseVal_openBrace]
  have hsk : skipWs (stringifyMems (.cons k v tl) ++ ',' :: '}' :: []) =
      stringifyMems (.cons k v tl) ++ ',' :: '}' :: [] := by
    rw [he, List.cons_append]
    exact skipWs_cons_of_not _ _ (by decide)
  have hhd : (stringifyMems (.cons k v tl) ++ ',' :: '}' :: []).head? = some '"' := by
    rw [he]
    simp
  have hrec := (parse_stringify_aux fuel).2.2.2.2 b (.cons k v tl) [] (by intro h; cases h)
    (by omega)
  rw [hsk]
  rw [if_neg (by rw [hhd]; simp)]
  rw [hrec]
  cases b <;> simp

theorem parseVal_arr_comma (b : Bool) (es : JsonElems) (hne : es ≠ .nil) (fuel : Nat)
    (hfuel : (stringifyElems es).length + 2 < fuel) :
    parseVal b (fuel + 1) ('[' :: (stringifyElems es ++ ',' :: ']' :: [])) =
      if b = true then some (Json.arr es, []) else none := by
  obtain ⟨v, tl, rfl⟩ : ∃ v tl, es = JsonElems.cons v tl := by
    cases es with
    | nil => exact absurd rfl hne
    | cons v tl => exact ⟨v, tl, rfl⟩
  obtain ⟨c, t, he, hc⟩ := stringifyElems_head v tl
  rw [parseVal_openBracket]
  have hsk : skipWs (stringifyElems (.cons v tl) ++ ',' :: ']' :: []) =
      stringifyElems (.cons v tl) ++ ',' :: ']' :: [] := by
    rw [he, List.cons_append]
    exact skipWs_cons_of_not _ _ hc.1
  have hhd : (stringifyElems (.cons v tl) ++ ',' :: ']' :: []).head? = some c := by
    rw [he]
    simp
  have hrec := (parse_stringify_aux fuel).2.2.1 b (.cons v tl) [] (by intro h; cases h)
    (by omega)
  rw [hsk]
  rw [if_neg (by rw [hhd]; simp [hc.2.2.1])]
  rw [hrec]
  cases b <;> simp

theorem parseJsonWithRepair_obj_trailing_comma (ms : JsonMems) (hne : ms ≠ .nil) :
    parseJsonWithRepair
        (String.mk ((stringifyVal (.obj ms)).dropLast ++ [',', '}'])) = .ok (.obj ms) := by
  unfold parseJsonWithRepair normalizeInput
  have htl : (String.mk ((stringifyVal (.obj ms)).dropLast ++ [',', '}'])).toList =
      (stringifyVal (.obj ms)).dropLast ++ [',', '}'] := rfl
  rw [htl, stringify_obj_comma_shape]
  set L : List Char := '{' :: (stringifyMems ms ++ ',' :: '}' :: []) with hL
  have htrim : jsTrim L = L := by
    apply jsTrim_eq_self
    · intro c2 t2 h2
      rw [hL] at h2
      cases h2
      decide
    · refine ⟨'{' :: (stringifyMems ms ++ [','] ), '}', ?_, by decide⟩
      rw [hL]
      simp
  have hunwrap : unwrapMarkdownCodeFence L = L := by
    apply unwrap_eq_self htrim
    intro c2 t2 h2
    rw [hL] at h2
    cases h2
    decide
  rw [hunwrap, htrim]
  rw [if_neg (by rw [hL]; simp)]
  have hfl : ∃ g, parseFuel L = g + 1 ∧ (stringifyMems ms).length + 2 < g := by
    refine ⟨2 * L.length + 1, by simp [parseFuel], ?_⟩
    rw [hL]
    simp
    omega
  obtain ⟨g, hg, hglt⟩ := hfl
  have hstrict : jsonParseStrict L = none := by
    unfold jsonParseStrict
    rw [hg, hL, parseVal_obj_comma false ms hne g hglt]
    simp
  have hlenient : jsonParseLenient L = some (Json.obj ms) := by
    unfold jsonParseLenient
    rw [hg, hL, parseVal_obj_comma true ms hne g hglt]
    simp
  rw [hstrict, hlenient]

theorem parseJsonWithRepair_arr_trailing_comma (es : JsonElems) (hne : es ≠ .nil) :
    parseJsonWithRepair
        (String.mk ((stringifyVal (.arr es)).dropLast ++ [',', ']'])) = .ok (.arr es) := by
  unfold parseJsonWithRepair normalizeInput
  have htl : (String.mk ((stringifyVal (.arr es)).dropLast ++ [',', ']'])).toList =
      (stringifyVal (.arr es)).dropLast ++ [',', ']'] := rfl
  rw [htl, stringify_arr_comma_shape]
  set L : List Char := '[' :: (stringifyElems es ++ ',' :: ']' :: []) with hL
  have htrim : jsTrim L = L := by
    apply jsTrim_eq_self
    · intro c2 t2 h2
      rw [hL] at h2
      cases h2
      decide
    · refine ⟨'[' :: (stringifyElems es ++ [','] ), ']', ?_, by decide⟩
      rw [hL]
      simp
  have hunwrap : unwrapMarkdownCodeFence L = L := by
    apply unwrap_eq_self htrim
    intro c2 t2 h2
    rw [hL] at h2
    cases h2
    decide
  rw [hunwrap, htrim]
  rw [if_neg (by rw [hL]; simp)]
  have hfl : ∃ g, parseFuel L = g + 1 ∧ (stringifyElems es).length + 2 < g := by
    refine ⟨2 * L.length + 1, by simp [parseFuel], ?_⟩
    rw [hL]
    simp
    omega
  obtain ⟨g, hg, hglt⟩ := hfl
  have hstrict : jsonParseStrict L = none := by
    unfold jsonParseStrict
    rw [hg, hL, parseVal_arr_comma false es hne g hglt]
    simp
  have hlenient : jsonParseLenient L = some (Json.arr es) := by
    unfold jsonParseLenient
    rw [hg, hL, parseVal_arr_comma true es hne g hglt]
    simp
  rw [hstrict, hlenient]

/-! C3 part (d): trailing prose after the closing brace of a serialized
object. -/

theorem unwrap_eq_self_of_head {l : List Char}
    (hhead : ∀ c t, jsTrim l = c :: t → ¬c = '\x60') :
    unwrapMarkdownCodeFence l = l := by
  unfold unwrapMarkdownCodeFence
  cases hjt : jsTrim l with
  | nil => simp [hjt, show fenceChars.isPrefixOf ([] : List Char) = false from by decide]
  | cons c t => simp [hjt, fence_not_leading (hhead c t hjt)]

theorem skipWs_ne_nil_of_shape {q : List Char} {t : List Char} {c : Char}
    (hq : q = t ++ [c]) (hc : isJsWs c = false) : (skipWs q).isEmpty = false := by
  cases hsk : skipWs q with
  | cons a s => rfl
  | nil =>
    exfalso
    have hall : ∀ x ∈ q, isWs x = true := by
      rw [← List.dropWhile_eq_nil_iff]
      exact hsk
    have hcq : c ∈ q := by rw [hq]; simp
    exact absurd (isWs_imp_isJsWs (hall c hcq)) (by simp [hc])

theorem parseJsonWithRepair_obj_trailing_prose (ms : JsonMems) (prose : String) :
    parseJsonWithRepair (String.mk (stringifyVal (.obj ms) ++ prose.toList)) =
      .ok (.obj ms) := by
  unfold parseJsonWithRepair normalizeInput
  have htl : (String.mk (stringifyVal (.obj ms) ++ prose.toList)).toList =
      stringifyVal (.obj ms) ++ prose.toList := rfl
  rw [htl]
  obtain ⟨c, t, hv, hc⟩ := stringifyVal_head (.obj ms)
  have htrimR : trimRight (stringifyVal (.obj ms) ++ prose.toList) =
      stringifyVal (.obj ms) ++ trimRight prose.toList :=
    trimRight_append_left (stringifyVal_last _)
  have hjt : jsTrim (stringifyVal (.obj ms) ++ prose.toList) =
      stringifyVal (.obj ms) ++ trimRight prose.toList := by
    unfold jsTrim
    rw [htrimR, hv, List.cons_append]
    exact trimLeft_cons_of_not _ _ hc.2.1
  have hun : unwrapMarkdownCodeFence (stringifyVal (.obj ms) ++ prose.toList) =
      stringifyVal (.obj ms) ++ prose.toList := by
    apply unwrap_eq_self_of_head
    intro c2 t2 h2
    rw [hjt, hv, List.cons_append] at h2
    cases h2
    exact hc.2.2.2.2.2.2
  rw [hun, hjt]
  rw [if_neg (by rw [hv, List.cons_append]; simp)]
  rcases trimRight_shape prose.toList with hq | ⟨tq, cq, hq, hcq⟩
  · rw [hq, List.append_nil, jsonParseStrict_stringify]
  · have hstrict : jsonParseStrict (stringifyVal (.obj ms) ++ trimRight prose.toList) =
        none := by
      unfold jsonParseStrict
      rw [parseVal_stringify false (.obj ms) (trimRight prose.toList) trivial]
      have hne2 := skipWs_ne_nil_of_shape hq hcq
      simp at hne2
      simp [hne2]
    have hlenient : jsonParseLenient (stringifyVal (.obj ms) ++ trimRight prose.toList) =
        some (.obj ms) := by
      unfold jsonParseLenient
      rw [parseVal_stringify true (.obj ms) (trimRight prose.toList) trivial]
      simp
    rw [hstrict, hlenient]

/-! C3 part (b): a value wrapped in a ```json markdown fence. -/

theorem fence_wrap_toList (v : Json) :
    ("```json\n" ++ jsonStringify v ++ "\n```").toList =
      ['\x60', '\x60', '\x60', 'j', 's', 'o', 'n', '\n'] ++
        (stringifyVal v ++ ['\n', '\x60', '\x60', '\x60']) := by
  have h1 : ("```json\n").toList = ['\x60', '\x60', '\x60', 'j', 's', 'o', 'n', '\n'] := by
    decide
  have h2 : ("\n```").toList = ['\n', '\x60', '\x60', '\x60'] := by decide
  have h3 : (jsonStringify v).toList = stringifyVal v := rfl
  have h0 : ("```json\n" ++ jsonStringify v ++ "\n```").toList =
      ("```json\n").toList ++ (jsonStringify v).toList ++ ("\n```").toList := by simp
  rw [h0, h1, h2, h3, List.append_assoc]

theorem jsTrim_inner_fence (v : Json) :
    jsTrim ('\n' :: (stringifyVal v ++ ['\n'])) = stringifyVal v := by
  unfold jsTrim
  have h1 : ('\n' :: (stringifyVal v ++ ['\n'])) = ('\n' :: stringifyVal v) ++ ['\n'] := by
    simp
  rw [h1, trimRight_append_ws _ (by decide)]
  obtain ⟨t, c, hvl, hcl⟩ := stringifyVal_last v
  rw [show '\n' :: stringifyVal v = ('\n' :: t) ++ [c] from by rw [hvl]; simp,
    trimRight_append_last hcl,
    show ('\n' :: t) ++ [c] = '\n' :: stringifyVal v from by rw [hvl]; simp,
    trimLeft_cons_ws _ (by decide)]
  obtain ⟨c2, t2, hv2, hc2⟩ := stringifyVal_head v
  rw [hv2]
  exact trimLeft_cons_of_not _ _ hc2.2.1

theorem unwrap_fence_wrap (v : Json) :
    unwrapMarkdownCodeFence
      (['\x60', '\x60', '\x60', 'j', 's', 'o', 'n', '\n'] ++
        (stringifyVal v ++ ['\n', '\x60', '\x60', '\x60'])) = stringifyVal v := by
  set L0 : List Char := ['\x60', '\x60', '\x60', 'j', 's', 'o', 'n', '\n'] ++
    (stringifyVal v ++ ['\n', '\x60', '\x60', '\x60']) with hL0
  have htrim : jsTrim L0 = L0 := by
    apply jsTrim_eq_self
    · intro c2 t2 h2
      rw [hL0, List.cons_append] at h2
      cases h2
      decide
    · refine ⟨['\x60', '\x60', '\x60', 'j', 's', 'o', 'n', '\n'] ++
        (stringifyVal v ++ ['\n', '\x60', '\x60']), '\x60', ?_, by decide⟩
      rw [hL0]
      simp
  unfold unwrapMarkdownCodeFence
  rw [htrim]
  have hfc : fenceChars = ['\x60', '\x60', '\x60'] := by decide
  have hpre : fenceChars.isPrefixOf L0 = true := by
    rw [hfc, hL0, List.isPrefixOf_iff_prefix]
    refine ⟨'j' :: 's' :: 'o' :: 'n' :: '\n' :: (stringifyVal v ++
      ['\n', '\x60', '\x60', '\x60']), ?_⟩
    simp
  rw [hpre]
  have hstrip : fenceTagStrip L0 =
      ('\n' :: (stringifyVal v ++ ['\n'])) ++ ['\x60', '\x60', '\x60'] := by
    unfold fenceTagStrip
    have hdrop3 : L0.drop 3 = 'j' :: 's' :: 'o' :: 'n' :: '\n' ::
        (stringifyVal v ++ ['\n', '\x60', '\x60', '\x60']) := by
      rw [hL0]
      simp [List.drop]
    rw [hdrop3]
    have htag : (('j' :: 's' :: 'o' :: 'n' :: '\n' ::
        (stringifyVal v ++ ['\n', '\x60', '\x60', '\x60'])).take 4).map Char.toLower =
        "json".toList := by
      simp [List.take]
    rw [if_pos htag]
    simp [List.drop]
  rw [hstrip]
  have hsuf : fenceChars.isSuffixOf
      (('\n' :: (stringifyVal v ++ ['\n'])) ++ ['\x60', '\x60', '\x60']) = true := by
    rw [hfc, List.isSuffixOf_iff_suffix]
    exact List.suffix_append _ _
  rw [if_pos rfl, if_pos ⟨hsuf, by simp⟩]
  have hlen : (('\n' :: (stringifyVal v ++ ['\n'])) ++ ['\x60', '\x60', '\x60']).length - 3 =
      ('\n' :: (stringifyVal v ++ ['\n'])).length := by
    simp
  rw [hlen, List.take_left, jsTrim_inner_fence]

theorem parseJsonWithRepair_fenced (v : Json) :
    parseJsonWithRepair ("```json\n" ++ jsonStringify v ++ "\n```") = .ok v := by
  unfold parseJsonWithRepair normalizeInput
  rw [fence_wrap_toList, unwrap_fence_wrap, jsTrim_stringify]
  obtain ⟨c, t, hv, _⟩ := stringifyVal_head v
  rw [if_neg (by rw [hv]; simp)]
  rw [jsonParseStrict_stringify]

/-! ## Claim C2: error behaviour of the recovery pipeline -/

/-- C2 counterexample: the claim says every throwing input fails with
exactly `RecoveryError("No JSON object found")`; the empty string is an
input on which `parseJsonWithRepair` throws `"Empty JSON string"`
instead. -/
theorem claim_C2_counterexample :
    parseJsonWithRepair "" = .error "Empty JSON string" ∧
      ("Empty JSON string" : String) ≠ "No JSON object found" :=
  ⟨rfl, by decide⟩

/-- C2 (amended): `parseJsonWithRepair` raises exactly
`"No JSON object found"` when step 4 finds no balanced-brace candidate
in the nonempty normalized input; in addition it raises
`"Empty JSON string"` when the normalized input is empty, and a parse
failure on the extracted candidate propagates as its own error.  Every
thrown error is of one of these three forms. -/
theorem claim_C2_recovery_error_forms :
    (∀ (s : String) (e : String), parseJsonWithRepair s = .error e →
      (e = "Empty JSON string" ∧ normalizeInput s = []) ∨
      (e = "No JSON object found" ∧ normalizeInput s ≠ [] ∧
        extractFirstBalancedJsonObject (normalizeInput s) = none) ∨
      (e = "Unexpected token in repaired JSON" ∧
        ∃ cand, extractFirstBalancedJsonObject (normalizeInput s) = some cand ∧
          jsonParseLenient cand = none)) ∧
    (∀ s : String, normalizeInput s ≠ [] →
      jsonParseStrict (normalizeInput s) = none →
      jsonParseLenient (normalizeInput s) = none →
      extractFirstBalancedJsonObject (normalizeInput s) = none →
      parseJsonWithRepair s = .error "No JSON object found") := by
  constructor
  · intro s e he
    unfold parseJsonWithRepair at he
    split at he
    next h0 =>
      left
      cases he
      exact ⟨rfl, List.isEmpty_iff.mp h0⟩
    next h0 =>
      have h0' : normalizeInput s ≠ [] := fun hx => h0 (by simp [hx])
      split at he
      next v hp => cases he
      next hp =>
        split at he
        next v hl => cases he
        next hl =>
          split at he
          next hx =>
            cases he
            right; left
            exact ⟨rfl, h0', hx⟩
          next cand hx =>
            split at he
            next v hc => cases he
            next hc =>
              cases he
              right; right
              exact ⟨rfl, cand, hx, hc⟩
  · intro s h1 h2 h3 h4
    unfold parseJsonWithRepair
    rw [if_neg (by simp [List.isEmpty_iff, h1]), h2, h3, h4]

/-! ## Claim C3: recovery-pipeline round trips -/

/-- C3: for every JSON-serializable value `v` (over the integer-number
JSON model), `recover(JSON.stringify(v)) = v`; recovery also succeeds on
`v` wrapped in a ```json markdown fence, on a nonempty serialized
object/array with one trailing comma inserted before its closing
brace/bracket, and on a serialized object followed by trailing prose. -/
theorem claim_C3_recovery_roundtrip :
    (∀ v : Json, parseJsonWithRepair (jsonStringify v) = .ok v) ∧
    (∀ v : Json, parseJsonWithRepair ("```json\n" ++ jsonStringify v ++ "\n```") = .ok v) ∧
    (∀ ms : JsonMems, ms ≠ .nil →
      parseJsonWithRepair (String.mk ((stringifyVal (.obj ms)).dropLast ++ [',', '}'])) =
        .ok (.obj ms)) ∧
    (∀ es : JsonElems, es ≠ .nil →
      parseJsonWithRepair (String.mk ((stringifyVal (.arr es)).dropLast ++ [',', ']'])) =
        .ok (.arr es)) ∧
    (∀ (ms : JsonMems) (prose : String),
      parseJsonWithRepair (String.mk (stringifyVal (.obj ms) ++ prose.toList)) =
        .ok (.obj ms)) :=
  ⟨parseJsonWithRepair_stringify, parseJsonWithRepair_fenced,
    parseJsonWithRepair_obj_trailing_comma, parseJsonWithRepair_arr_trailing_comma,
    parseJsonWithRepair_obj_trailing_prose⟩

theorem claim_C2_recovery_error_forms_witness :
    (("Empty JSON string" : String) = "Empty JSON string" ∧ normalizeInput "" = []) ∨
    (("Empty JSON string" : String) = "No JSON object found" ∧ normalizeInput "" ≠ [] ∧
      extractFirstBalancedJsonObject (normalizeInput "") = none) ∨
    (("Empty JSON string" : String) = "Unexpected token in repaired JSON" ∧
      ∃ cand, extractFirstBalancedJsonObject (normalizeInput "") = some cand ∧
        jsonParseLenient cand = none) :=
  claim_C2_recovery_error_forms.1 "" "Empty JSON string" rfl

theorem claim_C3_recovery_roundtrip_witness :
    (JsonMems.cons "a" (Json.num 1) .nil ≠ JsonMems.nil) ∧
      parseJsonWithRepair (String.mk
        ((stringifyVal (.obj (.cons "a" (.num 1) .nil))).dropLast ++ [',', '}'])) =
        .ok (.obj (.cons "a" (.num 1) .nil)) :=
  ⟨fun h => JsonMems.noConfusion h,
    claim_C3_recovery_roundtrip.2.2.1 (.cons "a" (.num 1) .nil)
      (fun h => JsonMems.noConfusion h)⟩

/-! ## Claim C10: re-registering a name silently replaces (last write
wins) -/

theorem find?_mapSet_self (m : Registry) (k : String) (v : ToolDefinition) :
    (mapSet m k v).find? (fun p => p.1 = k) = some (k, v) := by
  unfold mapSet
  by_cases h : m.any (fun p => p.1 = k) = true
  · rw [if_pos h]
    induction m with
    | nil => simp at h
    | cons p t ih =>
      by_cases hp : p.1 = k
      · simp [List.find?, hp]
      · simp only [List.any_cons, Bool.or_eq_true, decide_eq_true_eq] at h
        rcases h with h | h
        · exact absurd h hp
        · simp only [List.map_cons, if_neg hp]
          rw [List.find?]
          simp only [hp, decide_eq_false, Bool.false_eq_true, if_false]
          exact ih (by simpa using h)
  · rw [if_neg h]
    have hnone : m.find? (fun p => p.1 = k) = none := by
      rw [List.find?_eq_none]
      intro p hp
      simp only [List.any_eq_true] at h
      intro hk
      exact h ⟨p, hp, by simp [hk]⟩
    rw [List.find?_append, hnone]
    simp [List.find?]

theorem lookup_mapSet_self (m : Registry) (k : String) (v : ToolDefinition) :
    ToolRegistry.lookup (mapSet m k v) k = some v := by
  unfold ToolRegistry.lookup
  rw [find?_mapSet_self]
  rfl

theorem names_mapSet (m : Registry) (k : String) (v : ToolDefinition) :
    ToolRegistry.names (mapSet m k v) =
      if m.any (fun p => p.1 = k) then ToolRegistry.names m
      else ToolRegistry.names m ++ [k] := by
  unfold mapSet ToolRegistry.names
  by_cases h : m.any (fun p => p.1 = k) = true
  · rw [if_pos h, if_pos h, List.map_map]
    apply List.map_congr_left
    intro p _
    by_cases hp : p.1 = k
    · simp [hp]
    · simp [hp]
  · rw [if_neg h, if_neg h]
    simp

theorem names_register (m : Registry) (t : ToolDefinition) :
    ToolRegistry.names (ToolRegistry.register m t) =
      if m.any (fun p => p.1 = t.name) then ToolRegistry.names m
      else ToolRegistry.names m ++ [t.name] :=
  names_mapSet m t.name t

theorem mem_names_iff_any (m : Registry) (k : String) :
    k ∈ ToolRegistry.names m ↔ m.any (fun p => p.1 = k) = true := by
  unfold ToolRegistry.names
  simp only [List.mem_map, List.any_eq_true, decide_eq_true_eq]

/-- C10: registering a tool under an already-registered name never
fails and silently replaces the earlier definition: after the second
`register`, `validateArgs` uses the second definition's schema,
`execute` uses its executor, and (for a well-formed registry, whose
keys are distinct) the registry reports exactly one entry for that
name. -/
theorem claim_C10_register_last_write_wins :
    ∀ (m : Registry) (t1 t2 : ToolDefinition) (raw args : Json), t2.name = t1.name →
      ToolRegistry.lookup (ToolRegistry.register (ToolRegistry.register m t1) t2) t1.name =
        some t2 ∧
      ToolRegistry.validateArgs (ToolRegistry.register (ToolRegistry.register m t1) t2)
          t1.name raw =
        (match t2.argsSchema raw with
          | .error e => ValidationResult.err e
          | .ok a => ValidationResult.ok a) ∧
      ToolRegistry.execute (ToolRegistry.register (ToolRegistry.register m t1) t2)
          t1.name args = .ok (t2.execute args) ∧
      ((ToolRegistry.names m).Nodup →
        (ToolRegistry.names (ToolRegistry.register (ToolRegistry.register m t1) t2)).count
          t1.name = 1) := by
  intro m t1 t2 raw args hname
  have hlk : ToolRegistry.lookup (ToolRegistry.register (ToolRegistry.register m t1) t2)
      t1.name = some t2 := by
    unfold ToolRegistry.register
    rw [← hname]
    exact lookup_mapSet_self _ _ _
  refine ⟨hlk, ?_, ?_, ?_⟩
  · unfold ToolRegistry.validateArgs
    rw [hlk]
  · unfold ToolRegistry.execute
    rw [hlk]
  · intro hnodup
    have h1 : m.any (fun p => p.1 = t1.name) = true ∨
        m.any (fun p => p.1 = t1.name) = false := by
      cases m.any (fun p => p.1 = t1.name) <;> simp
    have hr1 := names_register m t1
    have hr2 := names_register (ToolRegistry.register m t1) t2
    rcases h1 with h1 | h1
    · have hmem : t1.name ∈ ToolRegistry.names (ToolRegistry.register m t1) := by
        rw [hr1, if_pos h1]
        exact (mem_names_iff_any m t1.name).mpr h1
      have hany2 : (ToolRegistry.register m t1).any (fun p => p.1 = t2.name) = true := by
        rw [hname]
        exact (mem_names_iff_any _ t1.name).mp hmem
      rw [hr2, if_pos hany2, hr1, if_pos h1]
      have : t1.name ∈ ToolRegistry.names m := (mem_names_iff_any m t1.name).mpr h1
      exact List.count_eq_one_of_mem hnodup this
    · have hnotmem : t1.name ∉ ToolRegistry.names m := by
        intro hmem
        rw [(mem_names_iff_any m t1.name).mp hmem] at h1
        cases h1
      have hany2 : (ToolRegistry.register m t1).any (fun p => p.1 = t2.name) = true := by
        rw [hname]
        apply (mem_names_iff_any _ t1.name).mp
        rw [hr1, if_neg (by simp [h1])]
        simp
      rw [hr2, if_pos hany2, hr1, if_neg (by simp [h1])]
      rw [List.count_append]
      rw [List.count_eq_zero.mpr hnotmem]
      simp

theorem claim_C10_register_last_write_wins_witness :
    (("t" : String) = "t") ∧
      ToolRegistry.lookup
        (ToolRegistry.register
          (ToolRegistry.register ([] : Registry)
            ⟨"t", "first", fun _ => .error "no", fun _ => Json.null⟩)
          ⟨"t", "second", fun j => .ok j, fun _ => Json.num 2⟩) "t" =
        some ⟨"t", "second", fun j => .ok j, fun _ => Json.num 2⟩ :=
  ⟨rfl,
    (claim_C10_register_last_write_wins ([] : Registry)
      ⟨"t", "first", fun _ => .error "no", fun _ => Json.null⟩
      ⟨"t", "second", fun j => .ok j, fun _ => Json.num 2⟩ Json.null Json.null rfl).1⟩

theorem resolveDispatchToolArgs_validated {registry : Registry} {toolName : String}
    {cand : Json} {script : List ModelResult} {args : Json} {rep : Bool}
    (h : (resolveDispatchToolArgs registry toolName cand script).1 = .ok (args, rep)) :
    ∃ raw, ToolRegistry.validateArgs registry toolName raw = .ok args := by
  unfold resolveDispatchToolArgs at h
  split at h
  next args0 hv =>
    simp at h
    exact ⟨cand, by rw [hv, h.1]⟩
  next e hv =>
    split at h
    next => cases h
    next r rest =>
      split at h
      next => cases h
      next repairedArgs hrep =>
        split at h
        next e2 hv2 => cases h
        next args2 hv2 =>
          simp at h
          exact ⟨repairedArgs, by rw [hv2, h.1]⟩

theorem validateRawToolArgs_ok_validated {registry : Registry} {toolName : String}
    {rawArgs : Option Json} {args : Json}
    (h : validateRawToolArgs registry toolName rawArgs = .ok args) :
    ∃ raw, ToolRegistry.validateArgs registry toolName raw = .ok args := by
  unfold validateRawToolArgs at h
  split at h
  next s =>
    split at h
    next => cases h
    next parsed hp => exact ⟨parsed, h⟩
  next m => exact ⟨.obj m, h⟩
  next => cases h

theorem resolveToolArgs_validated {registry : Registry} {toolName : String}
    {functionCall : ModelFunctionCall} {script : List ModelResult} {args : Json} {rep : Bool}
    (h : (resolveToolArgs registry toolName functionCall script).1 = .ok (args, rep)) :
    ∃ raw, ToolRegistry.validateArgs registry toolName raw = .ok args := by
  unfold resolveToolArgs at h
  split at h
  next args0 hv =>
    simp at h
    rw [← h.1]
    exact validateRawToolArgs_ok_validated hv
  next e hv =>
    split at h
    next => cases h
    next r rest =>
      split at h
      next => cases h
      next repairedArgs hrep =>
        split at h
        next e2 hv2 => cases h
        next args2 hv2 =>
          simp at h
          exact ⟨repairedArgs, by rw [hv2, h.1]⟩

theorem outcomeValidated_error {registry : Registry} {e : String}
    {rem : List ModelResult} {log : List (String × Json)}
    (hlog : ∀ x ∈ log, passedValidation registry x) :
    outcomeValidated registry ⟨.error e, rem, log⟩ := by
  refine ⟨hlog, ?_⟩
  intro res hres
  cases hres

theorem outcomeValidated_ok {registry : Registry} {s t : String}
    {tcs : List ToolCallRecord} {tr : List RunnerTraceStep}
    {rem : List ModelResult} {log : List (String × Json)}
    (hlog : ∀ x ∈ log, passedValidation registry x)
    (htcs : ∀ tc ∈ tcs, passedValidation registry (tc.toolName, tc.args)) :
    outcomeValidated registry ⟨.ok ⟨s, t, tcs, tr⟩, rem, log⟩ := by
  refine ⟨hlog, ?_⟩
  intro res hres tc htcm
  cases hres
  exact htcs tc htcm

theorem forall_mem_append_singleton {α : Type} {P : α → Prop} {l : List α} {a : α}
    (hl : ∀ x ∈ l, P x) (ha : P a) : ∀ x ∈ l ++ [a], P x := by
  intro x hx
  rcases List.mem_append.mp hx with h | h
  · exact hl x h
  · simp at h
    subst h
    exact ha

theorem runStructuredJsonRunner_validated (script : List ModelResult)
    (registry : Registry) (prompt : String) :
    outcomeValidated registry (runStructuredJsonRunner script registry prompt) := by
  unfold runStructuredJsonRunner
  split
  · exact outcomeValidated_error (by simp)
  · split
    · exact outcomeValidated_error (by simp)
    · split
      · split
        · exact outcomeValidated_error (by simp)
        · exact outcomeValidated_ok (by simp) (by simp)
      · split
        · exact outcomeValidated_error (by simp)
        · split
          · exact outcomeValidated_error (by simp)
          next args hv =>
            split
            · exact outcomeValidated_error
                (forall_mem_append_singleton (l := []) (by simp) ⟨_, hv⟩)
            · split
              · exact outcomeValidated_error
                  (forall_mem_append_singleton (l := []) (by simp) ⟨_, hv⟩)
              · split
                · exact outcomeValidated_error
                    (forall_mem_append_singleton (l := []) (by simp) ⟨_, hv⟩)
                · exact outcomeValidated_ok
                    (forall_mem_append_singleton (l := []) (by simp) ⟨_, hv⟩)
                    (forall_mem_append_singleton (l := []) (by simp) ⟨_, hv⟩)

theorem routerLoop_validated (registry : Registry) (fuel : Nat) :
    ∀ script contents toolCalls trace log,
      (∀ e ∈ log, passedValidation registry e) →
      (∀ tc ∈ toolCalls, passedValidation registry (tc.toolName, tc.args)) →
      outcomeValidated registry
        (routerLoop registry fuel script contents toolCalls trace log) := by
  induction fuel with
  | zero =>
    intro script contents toolCalls trace log hlog htc
    exact outcomeValidated_ok hlog htc
  | succ fuel ih =>
    intro script contents toolCalls trace log hlog htc
    rw [routerLoop]
    unfold routerTurn
    split
    · exact outcomeValidated_error hlog
    · split
      · split
        · exact outcomeValidated_ok hlog htc
        · split
          · exact outcomeValidated_ok hlog htc
          · split
            · exact outcomeValidated_error hlog
            · split
              · exact outcomeValidated_error hlog
              · exact outcomeValidated_ok hlog htc
      · split
        · exact outcomeValidated_error hlog
        next toolName argumentsJson hd =>
          split
          · exact outcomeValidated_error hlog
          next maybeArgs hpo =>
            split
            next e rest2 hres => exact outcomeValidated_error hlog
            next args repaired rest2 hres =>
              have hpv : passedValidation registry (toolName, args) :=
                resolveDispatchToolArgs_validated (by rw [hres])
              split
              · exact outcomeValidated_error
                  (forall_mem_append_singleton hlog hpv)
              · exact ih _ _ _ _ _
                  (forall_mem_append_singleton hlog hpv)
                  (forall_mem_append_singleton htc hpv)

theorem hybridLoop_validated (registry : Registry) (fuel : Nat) :
    ∀ script contents toolCalls trace log,
      (∀ e ∈ log, passedValidation registry e) →
      (∀ tc ∈ toolCalls, passedValidation registry (tc.toolName, tc.args)) →
      outcomeValidated registry
        (hybridLoop registry fuel script contents toolCalls trace log) := by
  induction fuel with
  | zero =>
    intro script contents toolCalls trace log hlog htc
    exact outcomeValidated_ok hlog htc
  | succ fuel ih =>
    intro script contents toolCalls trace log hlog htc
    rw [hybridLoop]
    unfold hybridTurn
    split
    · exact outcomeValidated_error hlog
    · split
      · split
        · exact outcomeValidated_ok hlog htc
        · split
          · split
            · exact outcomeValidated_error hlog
            · split
              · exact outcomeValidated_error hlog
              · exact outcomeValidated_ok hlog htc
          · split
            · exact outcomeValidated_error hlog
            · split
              · exact outcomeValidated_error hlog
              · split
                · split
                  · exact outcomeValidated_error hlog
                  · exact outcomeValidated_ok hlog htc
                · exact outcomeValidated_ok hlog htc
      next functionCall hfc =>
        split
        · exact outcomeValidated_error hlog
        · split
          next e rest2 hres => exact outcomeValidated_error hlog
          next args repaired rest2 hres =>
            have hpv : passedValidation registry (functionCall.name.getD "", args) :=
              resolveToolArgs_validated (by rw [hres])
            split
            · exact outcomeValidated_error
                (forall_mem_append_singleton hlog hpv)
            · exact ih _ _ _ _ _
                (forall_mem_append_singleton hlog hpv)
                (forall_mem_append_singleton htc hpv)

/-- C1: in every strategy run of the three engines (Structured-JSON,
Single-Tool-Router, Hybrid-Repair), every logged call to the registry's
`execute` uses arguments that previously passed `validateArgs` for the
same tool name, and every `ToolCallRecord` in a successful result carries
args that passed the registered tool's schema validation. -/
theorem claim_C1_no_unvalidated_execution (registry : Registry)
    (script : List ModelResult) (userPrompt : String) (maxTurns : Option Nat) :
    outcomeValidated registry (runStructuredJsonRunner script registry userPrompt) ∧
    outcomeValidated registry
      (runSingleToolRouterRunner script registry userPrompt maxTurns) ∧
    outcomeValidated registry (runHybridRepairRunner script registry userPrompt maxTurns) :=
  ⟨runStructuredJsonRunner_validated script registry userPrompt,
    routerLoop_validated registry (maxTurns.getD 4) script _ [] [] []
      (by simp) (by simp),
    hybridLoop_validated registry (maxTurns.getD 3) script _ [] [] []
      (by simp) (by simp)⟩

theorem claim_C1_no_unvalidated_execution_witness :
    passedValidation registryC1 ("echo", Json.obj .nil) :=
  (claim_C1_no_unvalidated_execution registryC1 scriptC1 "prompt" none).1.2
    ⟨"structured-json", "all done", [⟨"echo", Json.obj .nil, Json.str "done", false⟩],
      [⟨"llm", "request_tool_intent"⟩, ⟨"llm", "received_tool_intent"⟩,
        ⟨"intent", "parsed_intent"⟩, ⟨"llm", "request_final_response"⟩]⟩
    (by rfl)
    ⟨"echo", Json.obj .nil, Json.str "done", false⟩
    (by simp)

/-! ## Claim C4: exactly one repair exchange, second failure fatal -/

/-- C4: in both the Single-Tool-Router and Hybrid-Repair engines, valid
args are used directly without any repair exchange; invalid args trigger
exactly one LLM repair exchange (consuming exactly one scripted
response); a second validation failure after repair is fatal with the
engine's wrapped error; a repair that validates succeeds with
`repaired = true`. -/
theorem claim_C4_single_repair_then_fatal (registry : Registry)
    (toolName : String) (cand : Json) (fc : ModelFunctionCall)
    (r : ModelResult) (rest : List ModelResult) :
    (∀ args, ToolRegistry.validateArgs registry toolName cand = .ok args →
      ∀ script, resolveDispatchToolArgs registry toolName cand script =
        (.ok (args, false), script)) ∧
    (∀ e, ToolRegistry.validateArgs registry toolName cand = .err e →
      (resolveDispatchToolArgs registry toolName cand (r :: rest)).2 = rest) ∧
    (∀ e ra e2, ToolRegistry.validateArgs registry toolName cand = .err e →
      repairedDispatchArgs r = .ok ra →
      ToolRegistry.validateArgs registry toolName ra = .err e2 →
      (resolveDispatchToolArgs registry toolName cand (r :: rest)).1 =
        .error ("Tool args validation failed: " ++ e2)) ∧
    (∀ e ra args2, ToolRegistry.validateArgs registry toolName cand = .err e →
      repairedDispatchArgs r = .ok ra →
      ToolRegistry.validateArgs registry toolName ra = .ok args2 →
      (resolveDispatchToolArgs registry toolName cand (r :: rest)).1 =
        .ok (args2, true)) ∧
    (∀ args, validateRawToolArgs registry toolName fc.args = .ok args →
      ∀ script, resolveToolArgs registry toolName fc script =
        (.ok (args, false), script)) ∧
    (∀ e, validateRawToolArgs registry toolName fc.args = .err e →
      (resolveToolArgs registry toolName fc (r :: rest)).2 = rest) ∧
    (∀ e ra e2, validateRawToolArgs registry toolName fc.args = .err e →
      repairedToolArgs r = .ok ra →
      ToolRegistry.validateArgs registry toolName ra = .err e2 →
      (resolveToolArgs registry toolName fc (r :: rest)).1 =
        .error ("Tool args still invalid after repair: " ++ e2)) ∧
    (∀ e ra args2, validateRawToolArgs registry toolName fc.args = .err e →
      repairedToolArgs r = .ok ra →
      ToolRegistry.validateArgs registry toolName ra = .ok args2 →
      (resolveToolArgs registry toolName fc (r :: rest)).1 = .ok (args2, true)) := by
  refine ⟨?_, ?_, ?_, ?_, ?_, ?_, ?_, ?_⟩
  · intro args h script
    unfold resolveDispatchToolArgs
    rw [h]
  · intro e h
    unfold resolveDispatchToolArgs
    rw [h]
    cases hrep : repairedDispatchArgs r with
    | error e1 => simp [hrep]
    | ok ra =>
      cases hval : ToolRegistry.validateArgs registry toolName ra with
      | ok a => simp [hrep, hval]
      | err e2 => simp [hrep, hval]
  · intro e ra e2 h hrep hval
    unfold resolveDispatchToolArgs
    rw [h]
    simp [hrep, hval]
  · intro e ra args2 h hrep hval
    unfold resolveDispatchToolArgs
    rw [h]
    simp [hrep, hval]
  · intro args h script
    unfold resolveToolArgs
    rw [h]
  · intro e h
    unfold resolveToolArgs
    rw [h]
    cases hrep : repairedToolArgs r with
    | error e1 => simp [hrep]
    | ok ra =>
      cases hval : ToolRegistry.validateArgs registry toolName ra with
      | ok a => simp [hrep, hval]
      | err e2 => simp [hrep, hval]
  · intro e ra e2 h hrep hval
    unfold resolveToolArgs
    rw [h]
    simp [hrep, hval]
  · intro e ra args2 h hrep hval
    unfold resolveToolArgs
    rw [h]
    simp [hrep, hval]

theorem claim_C4_single_repair_then_fatal_witness :
    (resolveDispatchToolArgs registryC4 "t" (Json.str "nope") [repairOkC4]).1 =
      .ok (Json.obj .nil, true) ∧
    (resolveToolArgs registryC4 "t" fcC4 [repairBadC4]).1 =
      .error ("Tool args still invalid after repair: " ++ "bad") :=
  ⟨(claim_C4_single_repair_then_fatal registryC4 "t" (Json.str "nope") fcC4
      repairOkC4 []).2.2.2.1 "bad" (Json.obj .nil) (Json.obj .nil)
      (by rfl) (by rfl) (by rfl),
    (claim_C4_single_repair_then_fatal registryC4 "t" (Json.str "nope") fcC4
      repairBadC4 []).2.2.2.2.2.2.1 "functionCall.args must be a JSON object"
      (Json.obj (.cons "x" Json.null .nil)) "bad" (by rfl) (by rfl) (by rfl)⟩

/-! ## Claim C5: the Structured-JSON engine's control flow -/

/-- C5: the Structured-JSON engine performs a single selection exchange;
a parsed `respond` intent returns immediately with that response and an
empty `toolCalls` list (consuming only the one scripted exchange); a
`call_tool` intent with invalid args fails fatally with the validation
error and attempts no repair (consuming no further exchange, executing
nothing); a `call_tool` intent with valid args executes the tool and runs
exactly one finalization exchange, returning its response — two model
calls total in the success path. -/
theorem claim_C5_structured_json_flow (registry : Registry) (prompt : String)
    (response finalize : ModelResult) (rest : List ModelResult)
    (intent : ToolIntent) (hparse : parseToolIntentText response.text = .ok intent) :
    (intent.action = .respond → truthy intent.response = true →
      runStructuredJsonRunner (response :: rest) registry prompt =
        ⟨.ok ⟨"structured-json", intent.response.getD "", [],
          ⟨"llm", "request_tool_intent"⟩ ::
            appendThoughtTrace "intent" response.thoughts ++
            [⟨"llm", "received_tool_intent"⟩, ⟨"intent", "parsed_intent"⟩]⟩,
          rest, []⟩) ∧
    (∀ e, intent.action = .callTool → truthy intent.toolName = true →
      intent.args ≠ none →
      ToolRegistry.validateArgs registry (intent.toolName.getD "")
        (intent.args.getD .null) = .err e →
      runStructuredJsonRunner (response :: rest) registry prompt =
        ⟨.error ("Tool args validation failed: " ++ e), rest, []⟩) ∧
    (∀ args result finalText rest2, rest = finalize :: rest2 →
      intent.action = .callTool → truthy intent.toolName = true →
      intent.args ≠ none →
      ToolRegistry.validateArgs registry (intent.toolName.getD "")
        (intent.args.getD .null) = .ok args →
      ToolRegistry.execute registry (intent.toolName.getD "") args = .ok result →
      parseFinalResponseText finalize.text = .ok finalText →
      runStructuredJsonRunner (response :: rest) registry prompt =
        ⟨.ok ⟨"structured-json", finalText,
          [⟨intent.toolName.getD "", args, result, false⟩],
          ⟨"llm", "request_tool_intent"⟩ ::
            appendThoughtTrace "intent" response.thoughts ++
            [⟨"llm", "received_tool_intent"⟩, ⟨"intent", "parsed_intent"⟩,
              ⟨"llm", "request_final_response"⟩] ++
            appendThoughtTrace "finalize" finalize.thoughts⟩, rest2,
          [(intent.toolName.getD "", args)]⟩) := by
  refine ⟨?_, ?_, ?_⟩
  · intro hact hresp
    unfold runStructuredJsonRunner
    simp [hparse, hact, hresp]
  · intro e hact htn hargs hval
    unfold runStructuredJsonRunner
    simp [hparse, hact, htn, hargs, hval]
  · intro args result finalText rest2 hrest hact htn hargs hval hexec hfin
    subst hrest
    unfold runStructuredJsonRunner
    simp [hparse, hact, htn, hargs, hval, hexec, hfin]

theorem claim_C5_structured_json_flow_witness :
    runStructuredJsonRunner [respondResultC5] registryC5 "prompt" =
      ⟨.ok ⟨"structured-json", "hello", [],
        [⟨"llm", "request_tool_intent"⟩, ⟨"llm", "received_tool_intent"⟩,
          ⟨"intent", "parsed_intent"⟩]⟩, [], []⟩ :=
  (claim_C5_structured_json_flow registryC5 "prompt" respondResultC5
    respondResultC5 [] ⟨.respond, none, none, some "hello", none⟩ (by rfl)).1
    (by rfl) (by rfl)

theorem strategyAttempts_inr {f : Nat → Except String RunnerResult} :
    ∀ left attempt errors r att errs2,
      strategyAttempts f attempt errors left = .inr (r, att, errs2) →
      attempt ≤ att ∧ att < attempt + left ∧ f att = .ok r ∧
      (∀ i, attempt ≤ i → i < att → ∃ m, f i = .error m) := by
  intro left
  induction left with
  | zero => intro attempt errors r att errs2 h; cases h
  | succ left ih =>
    intro attempt errors r att errs2 h
    rw [strategyAttempts] at h
    cases hf : f attempt with
    | ok r0 =>
      rw [hf] at h
      cases h
      exact ⟨Nat.le_refl _, by omega, hf, fun i h1 h2 => absurd (Nat.lt_of_le_of_lt h1 h2)
        (Nat.lt_irrefl _)⟩
    | error m =>
      rw [hf] at h
      obtain ⟨h1, h2, h3, h4⟩ := ih (attempt + 1) (errors ++ [m]) r att errs2 h
      refine ⟨by omega, by omega, h3, ?_⟩
      intro i hi1 hi2
      rcases Nat.eq_or_lt_of_le hi1 with he | hl
      · exact ⟨m, he ▸ hf⟩
      · exact h4 i hl hi2

theorem strategyAttempts_all_fail (f : Nat → Except String RunnerResult)
    (msgs : Nat → String) :
    ∀ left attempt errors,
      (∀ i, attempt ≤ i → i < attempt + left → f i = .error (msgs i)) →
      strategyAttempts f attempt errors left =
        .inl (errors ++ (List.range left).map (fun k => msgs (attempt + k))) := by
  intro left
  induction left with
  | zero => intro attempt errors h; simp [strategyAttempts]
  | succ left ih =>
    intro attempt errors h
    rw [strategyAttempts]
    simp only [h attempt (Nat.le_refl _) (by omega)]
    rw [ih (attempt + 1) (errors ++ [msgs attempt])
      (fun i h1 h2 => h i (by omega) (by omega))]
    rw [List.append_assoc, List.range_succ_eq_map, List.map_cons, List.map_map,
      List.singleton_append]
    have hfun : ((fun k => msgs (attempt + k)) ∘ Nat.succ) =
        (fun k => msgs (attempt + 1 + k)) := by
      funext k
      simp only [Function.comp_apply]
      congr 1
      omega
    rw [hfun]
    simp

theorem getLast_range_map (g : Nat → String) (n : Nat) :
    ((List.range (n + 1)).map g).getLast? = some (g n) := by
  rw [List.range_succ, List.map_append]
  simp

/-- C6: the strategy-attempt retry layer runs the full strategy at most
`maxRetries + 1` times (with `maxRetries = max 0 (config.maxRetries ?? 0)`),
catching each attempt's error; every successful result was produced by an
attempt in `1..maxRetries+1` all of whose predecessors failed; when every
attempt fails, it raises the wrapped error naming the final failure
message; and a run that fails exactly once and then succeeds, given
`maxRetries ≥ 1`, returns a result with `attempts = 2` and the one
recorded error. -/
theorem claim_C6_strategy_retry_layer (f : Nat → Except String RunnerResult)
    (msgs : Nat → String) (strategy model : String) (cfg : Option Int)
    (r : RunnerResult) (m : String) :
    (∀ res, runStrategy f strategy model cfg = .ok res →
      1 ≤ res.attempts ∧ res.attempts ≤ effectiveMaxRetries cfg + 1 ∧
      f res.attempts = .ok res.result ∧
      (∀ i, 1 ≤ i → i < res.attempts → ∃ msg, f i = .error msg)) ∧
    ((∀ i, 1 ≤ i → i ≤ effectiveMaxRetries cfg + 1 → f i = .error (msgs i)) →
      runStrategy f strategy model cfg =
        .error ("Run failed after " ++ toString (effectiveMaxRetries cfg + 1) ++
          " attempt(s): " ++ msgs (effectiveMaxRetries cfg + 1))) ∧
    (f 1 = .error m → f 2 = .ok r → 1 ≤ effectiveMaxRetries cfg →
      runStrategy f strategy model cfg = .ok ⟨r, model, strategy, 2, some [m]⟩) := by
  refine ⟨?_, ?_, ?_⟩
  · intro res hres
    unfold runStrategy at hres
    cases hs : strategyAttempts f 1 [] (effectiveMaxRetries cfg + 1) with
    | inl errors => rw [hs] at hres; cases hres
    | inr p =>
      obtain ⟨r0, att, errs2⟩ := p
      rw [hs] at hres
      cases hres
      obtain ⟨h1, h2, h3, h4⟩ := strategyAttempts_inr _ _ _ _ _ _ hs
      have hatt : att ≤ effectiveMaxRetries cfg + 1 := by omega
      exact ⟨h1, hatt, h3, h4⟩
  · intro hall
    unfold runStrategy
    rw [strategyAttempts_all_fail f msgs (effectiveMaxRetries cfg + 1) 1 []
      (fun i h1 h2 => hall i h1 (by omega))]
    simp only [List.nil_append, getLast_range_map, Option.getD_some]
    rw [Nat.add_comm]
  · intro h1 h2 hge
    unfold runStrategy
    obtain ⟨n, hn⟩ : ∃ n, effectiveMaxRetries cfg = n + 1 :=
      ⟨effectiveMaxRetries cfg - 1, by omega⟩
    rw [hn]
    have h2a : f (1 + 1) = .ok r := h2
    rw [strategyAttempts]
    simp only [h1]
    rw [strategyAttempts]
    simp only [h2a, List.nil_append]
    rfl

theorem claim_C6_strategy_retry_layer_witness :
    runStrategy attemptOracleC6 "structured-json" "gemini" (some 1) =
      .ok ⟨runnerResultC6, "gemini", "structured-json", 2, some ["boom"]⟩ :=
  (claim_C6_strategy_retry_layer attemptOracleC6 (fun _ => "boom")
    "structured-json" "gemini" (some 1) runnerResultC6 "boom").2.2
    (by rfl) (by rfl) (by decide)

/-- C7: each model call is retried at most `MAX_TRANSIENT_RETRIES = 2`
additional times and only on messages classified transient; the slept
delay is the provider retry-after hint when present, else
`2000 * (attempt + 1)`; a non-transient error propagates immediately
(also as the second error), and a transient error on the final attempt
propagates with both backoff delays recorded. -/
theorem claim_C7_transport_retry (call : Nat → Except String ModelResult)
    (r : ModelResult) (m0 m1 m2 : String) :
    (call 0 = .ok r → generateWithRetry call = (.ok r, [])) ∧
    (call 0 = .error m0 → isRetryableGeminiError m0 = false →
      generateWithRetry call = (.error m0, [])) ∧
    (call 0 = .error m0 → isRetryableGeminiError m0 = true → call 1 = .ok r →
      generateWithRetry call =
        (.ok r, [(extractRetryDelayMs m0).getD (2000 * 1)])) ∧
    (call 0 = .error m0 → isRetryableGeminiError m0 = true →
      call 1 = .error m1 → isRetryableGeminiError m1 = false →
      generateWithRetry call =
        (.error m1, [(extractRetryDelayMs m0).getD (2000 * 1)])) ∧
    (call 0 = .error m0 → isRetryableGeminiError m0 = true →
      call 1 = .error m1 → isRetryableGeminiError m1 = true → call 2 = .ok r →
      generateWithRetry call =
        (.ok r, [(extractRetryDelayMs m0).getD (2000 * 1),
          (extractRetryDelayMs m1).getD (2000 * 2)])) ∧
    (call 0 = .error m0 → isRetryableGeminiError m0 = true →
      call 1 = .error m1 → isRetryableGeminiError m1 = true →
      call 2 = .error m2 →
      generateWithRetry call =
        (.error m2, [(extractRetryDelayMs m0).getD (2000 * 1),
          (extractRetryDelayMs m1).getD (2000 * 2)])) := by
  have h1eq : (1 : Nat) = 0 + 1 := rfl
  have h2eq : (2 : Nat) = 0 + 1 + 1 := rfl
  refine ⟨?_, ?_, ?_, ?_, ?_, ?_⟩
  · intro h0
    unfold generateWithRetry MAX_TRANSIENT_RETRIES
    rw [gwrGo]
    simp [h0]
  · intro h0 ht0
    unfold generateWithRetry MAX_TRANSIENT_RETRIES
    rw [gwrGo]
    simp [h0, ht0]
  · intro h0 ht0 h1
    unfold generateWithRetry MAX_TRANSIENT_RETRIES
    rw [gwrGo]
    simp only [h0, ht0]
    rw [gwrGo]
    rw [h1eq] at h1
    simp [h1]
  · intro h0 ht0 h1 ht1
    unfold generateWithRetry MAX_TRANSIENT_RETRIES
    rw [gwrGo]
    simp only [h0, ht0]
    rw [gwrGo]
    rw [h1eq] at h1
    simp [h1, ht1]
  · intro h0 ht0 h1 ht1 h2
    unfold generateWithRetry MAX_TRANSIENT_RETRIES
    rw [gwrGo]
    simp only [h0, ht0]
    rw [gwrGo]
    rw [h1eq] at h1
    simp only [h1, ht1]
    rw [gwrGo]
    rw [h2eq] at h2
    simp [h2]
  · intro h0 ht0 h1 ht1 h2
    unfold generateWithRetry MAX_TRANSIENT_RETRIES
    rw [gwrGo]
    simp only [h0, ht0]
    rw [gwrGo]
    rw [h1eq] at h1
    simp only [h1, ht1]
    rw [gwrGo]
    rw [h2eq] at h2
    simp [h2]

theorem claim_C7_transport_retry_witness :
    generateWithRetry callC7 = (.ok modelResultC7, [7000, 1500]) := by
  rw [(claim_C7_transport_retry callC7 modelResultC7 transientMsgC7a
    transientMsgC7b "").2.2.2.2.1 (by rfl) (by rfl) (by rfl) (by rfl) (by rfl)]
  rfl

theorem foldl_append_bind {α β : Type} (f : α → List β) :
    ∀ (l : List α) (acc : List β),
      l.foldl (fun a x => a ++ f x) acc = acc ++ l.bind f := by
  intro l
  induction l with
  | nil => intro acc; simp
  | cons x t ih => intro acc; simp [List.foldl_cons, ih]

theorem foldl_ext {α β : Type} (g1 g2 : β → α → β) (h : ∀ b a, g1 b a = g2 b a) :
    ∀ (l : List α) (b : β), l.foldl g1 b = l.foldl g2 b := by
  intro l
  induction l with
  | nil => intro b; rfl
  | cons x t ih => intro b; rw [List.foldl_cons, List.foldl_cons, h, ih]

theorem length_bind_const {α β : Type} (f : α → List β) (n : Nat)
    (h : ∀ a, (f a).length = n) : ∀ l : List α, (l.bind f).length = l.length * n := by
  intro l
  induction l with
  | nil => simp
  | cons x t ih => simp [List.cons_bind, h, ih, Nat.succ_mul, Nat.add_comm]

theorem bind_singleton_map {α β : Type} (f : α → β) :
    ∀ l : List α, l.bind (fun x => [f x]) = l.map f := by
  intro l
  induction l with
  | nil => rfl
  | cons x t ih => simp [List.cons_bind, ih]

theorem runBenchmarkRecords_eq_bind
    (run : String → String → String → Nat → Except String PlaygroundResult)
    (dur : String → String → String → Nat → Nat) (maxRetries : Option Int)
    (models strategies presets : List String) (iterations : Nat) :
    runBenchmarkRecords run dur maxRetries models strategies presets iterations =
      models.bind (fun model =>
        strategies.bind (fun strategy =>
          presets.bind (fun presetId =>
            (List.range iterations).map (fun k =>
              benchCell run dur maxRetries model strategy presetId (k + 1))))) := by
  unfold runBenchmarkRecords
  rw [foldl_ext _ (fun acc model =>
      acc ++ strategies.bind (fun strategy =>
        presets.bind (fun presetId =>
          (List.range iterations).map (fun k =>
            benchCell run dur maxRetries model strategy presetId (k + 1)))))]
  · rw [foldl_append_bind]
    simp
  · intro acc model
    rw [foldl_ext _ (fun acc strategy =>
        acc ++ presets.bind (fun presetId =>
          (List.range iterations).map (fun k =>
            benchCell run dur maxRetries model strategy presetId (k + 1))))]
    · rw [foldl_append_bind]
    · intro acc strategy
      rw [foldl_ext _ (fun acc presetId =>
          acc ++ (List.range iterations).map (fun k =>
            benchCell run dur maxRetries model strategy presetId (k + 1)))]
      · rw [foldl_append_bind]
      · intro acc presetId
        rw [foldl_append_bind, bind_singleton_map]

/-- C8: `runBenchmark` enumerates exactly
`models × strategies × presets × iterations` cells in deterministic
nested order (models outermost, then strategies, then presets, then the
1-based iteration counter), appending exactly one record per cell; a cell
whose strategy run throws appends the failure record (success = false,
the thrown message, zero tool calls, zero repaired calls,
`attempts = max(1, maxRetries + 1)`) and never aborts the remaining
enumeration. -/
theorem claim_C8_benchmark_enumeration
    (run : String → String → String → Nat → Except String PlaygroundResult)
    (dur : String → String → String → Nat → Nat) (maxRetries : Option Int)
    (models strategies presets : List String) (iterations : Nat)
    (model strategy presetId : String) (iteration : Nat) (msg : String) :
    (runBenchmarkRecords run dur maxRetries models strategies presets iterations =
      models.bind (fun model =>
        strategies.bind (fun strategy =>
          presets.bind (fun presetId =>
            (List.range iterations).map (fun k =>
              benchCell run dur maxRetries model strategy presetId (k + 1)))))) ∧
    ((runBenchmarkRecords run dur maxRetries models strategies presets iterations).length =
      models.length * strategies.length * presets.length * iterations) ∧
    (run model strategy presetId iteration = .error msg →
      benchCell run dur maxRetries model strategy presetId iteration =
        ⟨model, strategy, presetId, iteration, false,
          dur model strategy presetId iteration,
          (max 1 ((maxRetries.getD 0) + 1)).toNat, 0, 0, some msg⟩) := by
  refine ⟨runBenchmarkRecords_eq_bind run dur maxRetries models strategies presets
    iterations, ?_, ?_⟩
  · rw [runBenchmarkRecords_eq_bind]
    rw [length_bind_const _ (strategies.length * (presets.length * iterations))]
    · simp [Nat.mul_assoc]
    · intro model
      rw [length_bind_const _ (presets.length * iterations)]
      intro strategy
      rw [length_bind_const _ iterations]
      intro presetId
      simp
  · intro hrun
    unfold benchCell
    rw [hrun]

theorem claim_C8_benchmark_enumeration_witness :
    (runBenchmarkRecords runOracleC8 (fun _ _ _ _ => 0) none
      ["m"] ["structured-json"] ["good", "bad"] 2).length = 4 ∧
    benchCell runOracleC8 (fun _ _ _ _ => 0) none "m" "structured-json" "bad" 2 =
      ⟨"m", "structured-json", "bad", 2, false, 0, 1, 0, 0,
        some "Run failed after 1 attempt(s): boom"⟩ :=
  ⟨(claim_C8_benchmark_enumeration runOracleC8 (fun _ _ _ _ => 0) none
      ["m"] ["structured-json"] ["good", "bad"] 2 "m" "structured-json" "bad" 2
      "Run failed after 1 attempt(s): boom").2.1,
    (claim_C8_benchmark_enumeration runOracleC8 (fun _ _ _ _ => 0) none
      ["m"] ["structured-json"] ["good", "bad"] 2 "m" "structured-json" "bad" 2
      "Run failed after 1 attempt(s): boom").2.2 (by rfl)⟩

/-- C9: `percentile` over ascending-sorted values uses index
`ceil(n * q) - 1` clamped into range, giving
`percentile([100,200,300], 0.5) = 200` and
`percentile([100,200,300], 0.95) = 300`; and the group with durations
`[100,300,200]`, successes `[true,false,true]`, toolCalls `[2,0,1]`,
repairedCalls `[1,0,0]` aggregates to `successRate = 2/3`,
`avgDurationMs = 200`, `medianDurationMs = 200`, `p95DurationMs = 300`,
`avgToolCalls = 1`, `repairRate = 0.33`, `toolUseRate = 0.67`. -/
theorem claim_C9_aggregation_formulas :
    percentile [100, 200, 300] (mkRat 1 2) = 200 ∧
    percentile [100, 200, 300] (mkRat 19 20) = 300 ∧
    buildAggregates recordsC9 =
      [⟨"m::structured-json", "structured-json", "m", 3, 2, 1,
        mkRat 2 3, mkRat 1 3, 200, 200, 300,
        1, mkRat 33 100, mkRat 33 100, mkRat 67 100, 1⟩] := by
  refine ⟨by decide, by decide, ?_⟩
  decide

end GeminiToolcalling
